import Mathlib

/-!
# jsx2mp-runtime `Component`: lifecycle and incremental update

A shallow embedding of `packages/jsx2mp-runtime/src/component.js`.

* JavaScript values are a first-order datatype; objects, arrays and functions carry the
  reference that `===` compares.
* The instance, the host view (`_internal`) and the calls made to collaborators are an
  explicit machine state (`World`); a thrown exception is the `Except` error.
* User code (updaters, `shouldComponentUpdate`, `getDerivedStateFromProps`, `render`)
  is looked up in a table of behaviours (`Code`). It computes from its arguments and does
  not touch the instance; lifecycle callbacks and hooks are recorded as calls.
* Host calls are recorded as calls; what `_setData` does once they have completed is the
  separate step `settle`. The runtime never writes `_internal.data` itself: a host that
  merges the patches it receives is the separate step `hostReact`.
-/

namespace Jsx2mp

/-! ## Values -/

/-- A JavaScript value. Numbers are the integers and `NaN`; an object, an array and a
function carry their reference. -/
inductive Value where
  | undefined
  | null
  | bool (b : Bool)
  | num (n : Int)
  | nan
  | str (s : String)
  | func (ref : Nat)
  | obj (ref : Nat) (fields : List (String × Value))
  | arr (ref : Nat) (items : List Value)
  deriving Inhabited

/-- The own enumerable properties of an object, in insertion order. -/
abbrev Fields := List (String × Value)

/-- Result of the `typeof` operator. -/
inductive JsType where
  | tUndefined | tObject | tBoolean | tNumber | tString | tFunction
  deriving DecidableEq, Repr

namespace Value

/-- The `typeof` operator. -/
def typeOf : Value → JsType
  | undefined => .tUndefined
  | null => .tObject
  | bool _ => .tBoolean
  | num _ => .tNumber
  | nan => .tNumber
  | str _ => .tString
  | func _ => .tFunction
  | obj _ _ => .tObject
  | arr _ _ => .tObject

/-- Truthiness (`ToBoolean`): what `if (v)`, `v || w` and `while (v = ...)` test. -/
def truthy : Value → Bool
  | undefined => false
  | null => false
  | bool b => b
  | num n => n != 0
  | nan => false
  | str s => s != ""
  | func _ => true
  | obj _ _ => true
  | arr _ _ => true

/-- Strict identity `a === b`: by value on primitives (`NaN` differs from itself), by
reference on objects, arrays and functions. -/
def strictEq : Value → Value → Bool
  | undefined, undefined => true
  | null, null => true
  | bool a, bool b => a == b
  | num a, num b => a == b
  | str a, str b => a == b
  | func a, func b => a == b
  | obj a _, obj b _ => a == b
  | arr a _, arr b _ => a == b
  | _, _ => false

/-- Loose test `v != null`: false exactly for `null` and `undefined`. -/
def notNullish : Value → Bool
  | undefined => false
  | null => false
  | _ => true

/-- The operator `a || b`. -/
def or (a b : Value) : Value := if a.truthy then a else b

end Value

/-! ## Property bags -/

/-- Property read `o[k]` on a bag: `none` when `k` is not an own property. -/
def getField (fs : Fields) (k : String) : Option Value :=
  (fs.find? (fun e => e.1 == k)).map Prod.snd

/-- Property read `o[k]`, `undefined` when absent. -/
def getFieldD (fs : Fields) (k : String) : Value :=
  (getField fs k).getD Value.undefined

/-- Property write `o[k] = v`: replaces the value in place when `k` is already a property,
appends the property otherwise. -/
def setField : Fields → String → Value → Fields
  | [], k, v => [(k, v)]
  | (k0, v0) :: rest, k, v =>
    if k0 == k then (k0, v) :: rest else (k0, v0) :: setField rest k v

/-- The operator `k in o` on a bag of own properties. -/
def hasField (fs : Fields) (k : String) : Bool :=
  fs.any (fun e => e.1 == k)

/-- Own enumerable string-keyed properties of a value as `Object.assign`,
`Object.keys` and `for ... in` see them: the fields of an object, the indices of an
array, the characters of a string, nothing for other values. -/
def ownEntries : Value → Fields
  | Value.obj _ fs => fs
  | Value.arr _ xs => xs.enum.map (fun p => (toString p.1, p.2))
  | Value.str s => s.toList.enum.map (fun p => (toString p.1, Value.str (String.singleton p.2)))
  | _ => []

/-- One source of `Object.assign(target, source)` on the target's bag: every own property
of the source is written to the target, in order. -/
def assign (target : Fields) (source : Value) : Fields :=
  (ownEntries source).foldl (fun acc e => setField acc e.1 e.2) target

/-! ## Helpers imported from `./types` and `./shallowEqual` -/

/-- Modelled from the spec: `isNull` of `./types` is not among the sources; it is the test
for the null value. -/
def isNull : Value → Bool
  | Value.null => true
  | _ => false

/-- Modelled from the spec: `isFunction` of `./types` is not among the sources; it tells
whether an entry "is callable". -/
def isFunction : Value → Bool
  | Value.func _ => true
  | _ => false

/-- Modelled from the spec: `isArray` of `./types` is not among the sources; it tells
whether a side is "array-valued". -/
def isArray : Value → Bool
  | Value.arr _ _ => true
  | _ => false

/-- Modelled from the spec: `isPlainObject` of `./types` is not among the sources; it
tells whether a value is a "plain-mapping" object, as opposed to an array, a function or
a primitive. -/
def isPlainObject : Value → Bool
  | Value.obj _ _ => true
  | _ => false

/-- Modelled from the spec: `isEmptyObj` of `./types` is not among the sources; a batch
is empty when no key was classified into it. -/
def isEmptyObj (fs : Fields) : Bool := fs.isEmpty

/-- Modelled from the spec: `is` of `./shallowEqual` is not among the sources; it compares
"the full value, not per-key": two values are identical when `===` holds, and `NaN` is
identical to itself. -/
def is : Value → Value → Bool
  | Value.nan, Value.nan => true
  | a, b => a.strictEq b

/-- Modelled from the spec: `shallowEqual` of `./shallowEqual` is not among the sources;
identical values are equal, and two non-null objects are "shallow-equal key-by-key" when
they have the same number of keys and the values under each key are identical. -/
def shallowEqual (a b : Value) : Bool :=
  if is a b then true
  else if a.typeOf != JsType.tObject || isNull a || b.typeOf != JsType.tObject || isNull b then false
  else
    let ka := ownEntries a
    let kb := ownEntries b
    if ka.length != kb.length then false
    else ka.all (fun e => match getField kb e.1 with
      | some v => is e.2 v
      | none => false)

/-! ## Diffing rendered data against the host view -/

/-- The method `Array.prototype.every` with a callback `(val, index) => ...`. -/
def every (p : Value → Nat → Bool) : List Value → Nat → Bool
  | [], _ => true
  | x :: rest, i => p x i && every p rest (i + 1)

/-- Element read `a[i]` on the items of an array. -/
def index (xs : List Value) (i : Nat) : Value := xs.getD i Value.undefined

/-- Function `diffArray(prev, next)`; `next` is the items of an array, which is what the
only call site passes (the call is guarded by `Array.isArray(data[key])`). -/
def diffArray (prev : Value) (next : List Value) : Bool :=
  match prev with
  | Value.arr _ ps =>
    -- Only concern about list append case
    if next.length == 0 then false
    else if ps.length == 0 then true
    else every (fun val i => (index ps i).strictEq val) (next.take ps.length) 0
  | _ => false

/-- Function `diffData(prevData, nextData)`. -/
def diffData (prevData nextData : Value) : Bool :=
  let prevType := prevData.typeOf
  let nextType := nextData.typeOf
  if prevType != nextType then true
  else if prevType == JsType.tObject && !isNull prevData && !isNull nextData then
    !shallowEqual prevData nextData
  else !prevData.strictEq nextData

/-! ## The instance, the host view and the collaborators -/

/-- Lifecycle names of `./cycles`. -/
inductive Cycle where
  | RENDER
  | ON_SHOW
  | ON_HIDE
  | COMPONENT_DID_MOUNT
  | COMPONENT_DID_UPDATE
  | COMPONENT_WILL_MOUNT
  | COMPONENT_WILL_UNMOUNT
  | COMPONENT_WILL_RECEIVE_PROPS
  | COMPONENT_WILL_UPDATE
  deriving DecidableEq, Repr

/-- A function registered with `_registerLifeCycle`: a user function, or the closure
`() => contextItem.emitter.off(contextUpdater)` that `_readContext` registers. -/
inductive Hook where
  | user (ref : Nat)
  | unsubscribe (emitter : Nat)
  deriving DecidableEq, Repr

/-- A thrown exception. -/
inductive Err where
  | typeError
  | noRender
  | thrown (v : Value)

/-- A call that leaves the instance: a user callback, a collaborator, or the host. -/
inductive Event where
  | own (cycle : Cycle) (args : List Value)
  | hook (cycle : Cycle) (fn : Hook) (args : List Value)
  | pageHook (cycle : Cycle) (fn : Nat) (args : List Value)
  | render (props state : Value)
  | enqueueRender
  | setComponentProps (instanceId : Value)
  | removeComponentProps (instanceId : Value)
  | setData (patch : Fields)
  | spliceData (patch : Fields)
  | hostSet (key : String) (value : Value)
  | nextTick
  | callback (ref : Nat)
  | hookDestory (ref : Nat)
  | emitterOn (emitter : Nat)
  | emitterOff (emitter : Nat)

/-- The host view `this._internal`. -/
structure Host where
  /-- Reference of the view object. -/
  ref : Nat
  /-- Current data bag `_internal.data`. -/
  data : Fields
  /-- Other own properties of the view, read and written by the quick-app variant. -/
  own : Fields
  /-- Whether the host offers `$spliceData`. -/
  hasSpliceData : Bool
  /-- Whether the host offers `$batchedUpdates`. -/
  hasBatchedUpdates : Bool

/-- An entry of `__dependencies`. -/
structure ContextItem where
  emitter : Nat
  renderedContext : Value

/-- The fields of a component instance. -/
structure Component where
  state : Value
  props : Value
  nextProps : Value
  prevProps : Value
  prevState : Value
  context : Value
  instanceId : Value
  __dependencies : List (String × ContextItem)
  __mounted : Bool
  __shouldUpdate : Value
  __forceUpdate : Value
  __updating : Bool
  _forwardRef : Value
  __prevForwardRef : Value
  _hookID : Nat
  /-- Hook objects: the reference of the `destory` function of each one that has it. -/
  hooks : List (Option Nat)
  _pendingStates : List Value
  _pendingCallbacks : List Value
  _cycles : List (Cycle × List Hook)
  _internal : Option Host

/-- The continuation `Promise.all(setDataPromiseTask).then(...)` of one `_setData` call,
waiting for the host calls to complete; it holds the captured `$ready`. -/
structure Commit where
  ready : Value

/-- Machine state: the instance, what it has called so far, the continuations that wait
for the host, the current value of each context emitter, `Host.current`, and the next
unused object reference. -/
structure World where
  self : Component
  events : List Event
  commits : List Commit
  emitters : List (Nat × Value)
  hostCurrent : Bool
  fresh : Nat

/-- A context handle: `Provider.contextProp` and the emitter `Provider.readEmitter()`
returns. -/
structure Context where
  contextProp : String
  emitter : Nat

/-- User code and module-level constants the component file refers to. -/
structure Code where
  /-- Constant `isQuickApp` of `universal-env`. -/
  isQuickApp : Bool
  /-- Global constant `TAGID`. -/
  TAGID : String
  /-- Behaviour of a function value called as a state updater,
  `f.call(this, state, this.props)`: what it returns, or what it throws, as a function of
  the state and the props it is given. -/
  call : Value → Value → Value → Except Value Value
  /-- Method `render(props, state)` when the instance has one: the data it hands to
  `_updateData`, which is "used in render cycle", if it does. -/
  render : Option (Value → Value → Option Fields)
  /-- Method `shouldComponentUpdate(nextProps, nextState)` when the instance has one. -/
  shouldComponentUpdate : Option (Value → Value → Value)
  /-- Static `getDerivedStateFromProps(props, state)` when configured. -/
  getDerivedStateFromProps : Option (Value → Value → Value)
  /-- Whether the instance has a method named as the lifecycle. -/
  own : Cycle → Bool
  /-- Static `contextType` of the class. -/
  contextType : Option Context
  /-- Registry `pageCycles[pageId][cycle]` of `./page`, empty when absent. -/
  pageCycles : Value → Cycle → List Nat

/-- A computation on the machine state that returns or throws; the state changes made
before a throw stay. -/
def M (α : Type) : Type := World → Except Err α × World

namespace M

/-- Return normally. -/
def ret {α : Type} (a : α) : M α := fun w => (.ok a, w)

/-- Throw. -/
def throw {α : Type} (e : Err) : M α := fun w => (.error e, w)

/-- Sequence two computations; a throw of the first skips the second. -/
def bind {α β : Type} (m : M α) (f : α → M β) : M β := fun w =>
  match m w with
  | (.ok a, w1) => f a w1
  | (.error e, w1) => (.error e, w1)

/-- Read the instance. -/
def self : M Component := fun w => (.ok w.self, w)

/-- Update the instance. -/
def modify (f : Component → Component) : M Unit := fun w =>
  (.ok (), { w with self := f w.self })

/-- Record a call. -/
def emit (e : Event) : M Unit := fun w => (.ok (), { w with events := w.events ++ [e] })

/-- Record calls, in order. -/
def emitAll (es : List Event) : M Unit := fun w =>
  (.ok (), { w with events := w.events ++ es })

/-- Allocate an object reference. -/
def alloc : M Nat := fun w => (.ok w.fresh, { w with fresh := w.fresh + 1 })

end M

instance : Monad M where
  pure := M.ret
  bind := M.bind

/-! ## Pending state and pending callbacks -/

/-- Method `setState(partialState, callback)`. -/
def setState (partialState callback : Value) : M Unit := do
  if partialState.notNullish then
    M.modify (fun s => { s with _pendingStates := s._pendingStates ++ [partialState] })
  if isFunction callback then
    M.modify (fun s => { s with _pendingCallbacks := s._pendingCallbacks ++ [callback] })
  M.emit Event.enqueueRender

/-- The loop of `_collectState` on the local `state` (the object with reference `ref`)
and the queue: `while (parialState = this._pendingStates.shift())`. It gives the
outcome and the queue that is left. -/
def collectLoop (c : Code) (props : Value) (ref : Nat) :
    Fields → List Value → Except Err Fields × List Value
  | state, [] => (.ok state, [])
  | state, parialState :: rest =>
    if !parialState.truthy then (.ok state, rest)
    else if isNull parialState then collectLoop c props ref state rest
    else if isFunction parialState then
      match c.call parialState (Value.obj ref state) props with
      | .ok result => collectLoop c props ref (assign state result) rest
      | .error e => (.error (Err.thrown e), rest)
    else collectLoop c props ref (assign state parialState) rest

/-- Method `_collectState()`. -/
def _collectState (c : Code) : M Value := fun w =>
  let ref := w.fresh
  let out := collectLoop c w.self.props ref (assign [] w.self.state) w.self._pendingStates
  let w1 := { w with fresh := w.fresh + 1, self := { w.self with _pendingStates := out.2 } }
  match out.1 with
  | .ok state => (.ok (Value.obj ref state), w1)
  | .error e => (.error e, w1)

/-- The loop of `triggerCallbacks` on the queue read from its end:
`while (callback = callbacks.pop()) callback()`. It gives the calls made, the outcome
and what is left of the queue, still read from its end. -/
def popLoop : List Value → List Event × Except Err Unit × List Value
  | [] => ([], .ok (), [])
  | callback :: rest =>
    if !callback.truthy then ([], .ok (), rest)
    else
      match callback with
      | Value.func ref =>
        let out := popLoop rest
        (Event.callback ref :: out.1, out.2)
      | _ => ([], .error Err.typeError, rest)

/-- Function `triggerCallbacks(callbacks)` on `this._pendingCallbacks`. -/
def triggerCallbacks : M Unit := fun w =>
  let out := popLoop w.self._pendingCallbacks.reverse
  ( out.2.1,
    { w with
      events := w.events ++ out.1,
      self := { w.self with _pendingCallbacks := out.2.2.reverse } } )

/-! ## Building and committing the patch -/

/-- Property read `v[k]` on a value: `none` stands for the `TypeError` of reading a
property of `undefined` or `null`. Only own properties are modelled. -/
def getProp (v : Value) (k : String) : Option Value :=
  match v with
  | Value.undefined => none
  | Value.null => none
  | _ => some (getFieldD (ownEntries v) k)

/-- The items of an array value. -/
def items : Value → List Value
  | Value.arr _ xs => xs
  | _ => []

/-- Property `v.length` of an array. -/
def lengthOf : Value → Value
  | Value.arr _ xs => Value.num xs.length
  | _ => Value.undefined

/-- The start index `slice(v)` uses for `v`. -/
def sliceStart : Value → Nat
  | Value.num n => n.toNat
  | _ => 0

/-- The two batches the `$spliceData` variant builds, and the next unused reference. -/
structure Batches where
  normalData : Fields
  arrayData : Fields
  fresh : Nat

/-- Body of the loop `for (let key in data)` of the `$spliceData` variant. -/
def classifyKey (currentData data : Fields) (b : Batches) (key : String) : Batches :=
  let cur := getFieldD currentData key
  let next := getFieldD data key
  if isArray next && diffArray cur (items next) then
    { b with
      arrayData := setField b.arrayData key
        (Value.arr b.fresh ([lengthOf cur, Value.num 0] ++ (items next).drop (sliceStart (lengthOf cur)))),
      fresh := b.fresh + 1 }
  else if diffData cur next then
    if isPlainObject next then
      { b with
        normalData := setField b.normalData key
          (Value.obj b.fresh (assign (assign [] cur) next)),
        fresh := b.fresh + 1 }
    else { b with normalData := setField b.normalData key next }
  else b

/-- The loop `for (let key in data)` of the `$spliceData` variant, from empty batches. -/
def classify (currentData data : Fields) (fresh : Nat) : Batches :=
  (data.map Prod.fst).foldl (classifyKey currentData data) ⟨[], [], fresh⟩

/-- The loop `for (let key in data)` of the variant without `$spliceData`. -/
def classifyPlain (currentData data : Fields) : Fields :=
  (data.map Prod.fst).foldl
    (fun normalData key =>
      if diffData (getFieldD currentData key) (getFieldD data key) then
        setField normalData key (getFieldD data key)
      else normalData)
    []

/-- What the quick-app task has done so far: the view's own properties, the calls to the
host, and the captured `$ready`. -/
structure QuickState where
  own : Fields
  events : List Event
  ready : Value

/-- Body of the loop `for (let key in data)` of the quick-app task. The host's `$set`
is taken to add the property to the view. -/
def quickKey (hostRef dataRef : Nat) (data : Fields) (q : QuickState) (key : String) : QuickState :=
  let q1 : QuickState :=
    if key == "$ready" then
      -- Only this._interanal.$ready !== data.ready, it will trigger componentDidMount
      { q with ready := Value.bool (!(getFieldD q.own "$ready").strictEq (getFieldD data "ready")) }
    else q
  if !hasField q1.own key then
    { q1 with
      own := setField q1.own key (getFieldD data key),
      events := q1.events ++ [Event.hostSet key (getFieldD data key)] }
  else if diffData (Value.obj hostRef q1.own) (Value.obj dataRef data) then
    { q1 with own := setField q1.own key (getFieldD data key) }
  else q1

/-- A task pushed on `setDataTask`. -/
inductive Task where
  | setData (normalData : Fields)
  | spliceData (arrayData : Fields)
  | quickApp (data : Fields)
  | setDataReady (normalData : Fields)

/-- What `_setData` has before it issues the tasks: the tasks, in order, the `$ready`
captured so far, and the next unused reference. -/
structure Plan where
  tasks : List Task
  ready : Value
  fresh : Nat

/-- First half of `_setData(data)`: choose the variant and build `setDataTask`. -/
def plan (c : Code) (host : Host) (data : Fields) (fresh : Nat) : Plan :=
  if host.hasSpliceData then
    let b := classify host.data data fresh
    let ready := if !isEmptyObj b.normalData then getFieldD b.normalData "$ready" else Value.bool false
    let t1 := if !isEmptyObj b.normalData then [Task.setData b.normalData] else []
    let t2 := if !isEmptyObj b.arrayData then [Task.spliceData b.arrayData] else []
    ⟨t1 ++ t2, ready, b.fresh⟩
  else if c.isQuickApp then
    ⟨[Task.quickApp data], Value.bool false, fresh⟩
  else
    let normalData := classifyPlain host.data data
    let t := if !isEmptyObj normalData then [Task.setDataReady normalData] else []
    ⟨t, Value.bool false, fresh⟩

/-- Invoke one task, `invokeTask(resolve)`: the host call it makes, what it does to the
view, and the `$ready` it captures. -/
def invokeTask (dataRef : Nat) (host : Host) (ready : Value) : Task → Host × List Event × Value
  | Task.setData normalData => (host, [Event.setData normalData], ready)
  | Task.spliceData arrayData => (host, [Event.spliceData arrayData], ready)
  | Task.setDataReady normalData =>
    (host, [Event.setData normalData], getFieldD normalData "$ready")
  | Task.quickApp data =>
    let q := (data.map Prod.fst).foldl (quickKey host.ref dataRef data) ⟨host.own, [], ready⟩
    ({ host with own := q.own }, q.events ++ [Event.nextTick], q.ready)

/-- Invoke the tasks in order, `setDataTask.map(invokeTask => ...)`. -/
def invokeTasks (dataRef : Nat) : Host → Value → List Task → Host × List Event × Value
  | host, ready, [] => (host, [], ready)
  | host, ready, t :: rest =>
    let r := invokeTask dataRef host ready t
    let out := invokeTasks dataRef r.1 r.2.2 rest
    (out.1, r.2.1 ++ out.2.1, out.2.2)

/-- Method `_setData(data)`, up to the point where it waits for the host: the host's
`$batchedUpdates`, when offered, is taken to run its argument at once, as the default
does. The continuation is left in `commits`. -/
def _setData (c : Code) (dataRef : Nat) (data : Fields) : M Unit := fun w =>
  match w.self._internal with
  | none => (.error Err.typeError, w)
  | some host =>
    let p := plan c host data w.fresh
    if p.tasks.length > 0 then
      let out := invokeTasks dataRef host p.ready p.tasks
      ( .ok (),
        { w with
          fresh := p.fresh,
          events := w.events ++ out.2.1,
          commits := w.commits ++ [⟨out.2.2⟩],
          self := { w.self with _internal := some out.1 } } )
    else triggerCallbacks { w with fresh := p.fresh }

/-- Method `_updateData(data)`. -/
def _updateData (c : Code) (dataRef : Nat) (data : Fields) : M Unit := fun w =>
  if w.self._internal.isNone then (.ok (), w)
  else
    match getProp w.self.props c.TAGID with
    | none => (.error Err.typeError, w)
    | some tag =>
      let data1 := setField (setField data "$ready" (Value.bool true)) c.TAGID tag
      _setData c dataRef data1 { w with self := { w.self with __updating := true } }

/-! ## Lifecycle dispatch -/

/-- Method `_registerLifeCycle(cycle, fn)` on the table `_cycles`. -/
def registerLifeCycle : List (Cycle × List Hook) → Cycle → Hook → List (Cycle × List Hook)
  | [], cycle, fn => [(cycle, [fn])]
  | (c0, fns) :: rest, cycle, fn =>
    if c0 = cycle then (c0, fns ++ [fn]) :: rest else (c0, fns) :: registerLifeCycle rest cycle fn

/-- Method `_registerLifeCycle(cycle, fn)`. -/
def _registerLifeCycle (cycle : Cycle) (fn : Hook) : M Unit :=
  M.modify (fun s => { s with _cycles := registerLifeCycle s._cycles cycle fn })

/-- The hooks `this._cycles[cycle]`, none when the table has no such property. -/
def cyclesOf (cycles : List (Cycle × List Hook)) (cycle : Cycle) : List Hook :=
  match cycles.find? (fun e => e.1 = cycle) with
  | some e => e.2
  | none => []

/-- The calls a hook registered for `cycle` makes when invoked with `args`. -/
def runHook (cycle : Cycle) (args : List Value) : Hook → List Event
  | Hook.user ref => [Event.hook cycle (Hook.user ref) args]
  | Hook.unsubscribe emitter =>
    [Event.hook cycle (Hook.unsubscribe emitter) args, Event.emitterOff emitter]

/-- The lifecycle cases of `_trigger(cycle, ...args)`: the own method, then the locally
registered hooks, then the page-level hooks. -/
def triggerCycle (c : Code) (cycle : Cycle) (args : List Value) : M Unit := do
  let self ← M.self
  if c.own cycle then M.emit (Event.own cycle args)
  M.emitAll ((cyclesOf self._cycles cycle).flatMap (runHook cycle args))
  M.emitAll ((c.pageCycles self.instanceId cycle).map (fun fn => Event.pageHook cycle fn args))

/-- Current value `emitter.value` of a context emitter. -/
def emitterValue (emitters : List (Nat × Value)) (emitter : Nat) : Value :=
  match emitters.find? (fun e => e.1 = emitter) with
  | some e => e.2
  | none => Value.undefined

/-- Write `this.__dependencies[contextProp] = item`. -/
def setDependency : List (String × ContextItem) → String → ContextItem → List (String × ContextItem)
  | [], k, item => [(k, item)]
  | (k0, i0) :: rest, k, item =>
    if k0 == k then (k0, item) :: rest else (k0, i0) :: setDependency rest k item

/-- Method `_readContext(context)`. -/
def _readContext (context : Context) : M Value := fun w =>
  match w.self.__dependencies.find? (fun e => e.1 == context.contextProp) with
  | none =>
    let value := emitterValue w.emitters context.emitter
    let w1 := { w with events := w.events ++ [Event.emitterOn context.emitter] }
    let w2 := (_registerLifeCycle Cycle.COMPONENT_WILL_UNMOUNT (Hook.unsubscribe context.emitter) w1).2
    ( .ok value,
      { w2 with self := { w2.self with
          __dependencies :=
            setDependency w2.self.__dependencies context.contextProp ⟨context.emitter, value⟩ } } )
  | some e =>
    let value := emitterValue w.emitters e.2.emitter
    ( .ok value,
      { w with self := { w.self with
          __dependencies :=
            setDependency w.self.__dependencies context.contextProp ⟨e.2.emitter, value⟩ } } )

/-- Method `_injectContextType()`. -/
def _injectContextType (c : Code) : M Unit :=
  match c.contextType with
  | some contextType => do
    let value ← _readContext contextType
    M.modify (fun s => { s with context := value })
  | none => pure ()

/-- The case `RENDER` of `_trigger(cycle, ...args)`. -/
def triggerRender (c : Code) (args : List Value) : M Unit :=
  match c.render with
  | none => M.throw Err.noRender
  | some render => do
    (fun w => (.ok (), { w with hostCurrent := true }))
    M.modify (fun s => { s with _hookID := 0 })
    let self ← M.self
    let nextProps := (index args 0).or self.props
    let nextState := (index args 1).or self.state
    _injectContextType c
    M.modify (fun s => { s with props := nextProps, state := nextState })
    M.emit (Event.render nextProps nextState)
    match render nextProps nextState with
    | some data => do
      let dataRef ← M.alloc
      _updateData c dataRef data
    | none => pure ()

/-- Method `_trigger(cycle, ...args)`. -/
def _trigger (c : Code) (cycle : Cycle) (args : List Value) : M Unit :=
  match cycle with
  | Cycle.RENDER => triggerRender c args
  | _ => triggerCycle c cycle args

/-- The continuation `Promise.all(setDataPromiseTask).then(...)` of the oldest `_setData`
call that waits, run when its host calls have completed. -/
def settle (c : Code) : M Unit := fun w =>
  match w.commits with
  | [] => (.ok (), w)
  | commit :: rest =>
    ( do
        if commit.ready.truthy then
          -- trigger did mount
          _trigger c Cycle.COMPONENT_DID_MOUNT []
        triggerCallbacks : M Unit ) { w with commits := rest }

/-! ## Mount, update, unmount -/

/-- The instance `new Component(props)` builds; `stateRef` is the reference of its empty
state object. The deferred `attachRef` is left out. -/
def construct (props instanceId : Value) (stateRef : Nat) : Component where
  state := Value.obj stateRef []
  props := props
  nextProps := Value.undefined
  prevProps := Value.undefined
  prevState := Value.undefined
  context := Value.undefined
  instanceId := instanceId
  __dependencies := []
  __mounted := false
  __shouldUpdate := Value.bool false
  __forceUpdate := Value.undefined
  __updating := false
  _forwardRef := Value.undefined
  __prevForwardRef := Value.undefined
  _hookID := 0
  hooks := []
  _pendingStates := []
  _pendingCallbacks := []
  _cycles := []
  _internal := none

/-- The steps `getDerivedStateFromProps(props, state)` and
`if (partialState) ... Object.assign({}, partialState)`: the fresh copy, if any. -/
def deriveState (c : Code) (props state : Value) : M (Option Value) :=
  match c.getDerivedStateFromProps with
  | some getDerivedStateFromProps =>
    let partialState := getDerivedStateFromProps props state
    if partialState.truthy then do
      let ref ← M.alloc
      pure (some (Value.obj ref (assign [] partialState)))
    else pure none
  | none => pure none

/-- Method `_mountComponent()`. -/
def _mountComponent (c : Code) : M Unit := do
  -- Step 1: get state from getDerivedStateFromProps
  let self ← M.self
  match ← deriveState c self.props self.state with
  | some state => M.modify (fun s => { s with state := state })
  | none => pure ()
  -- Step 2: trigger will mount.
  _trigger c Cycle.COMPONENT_WILL_MOUNT []
  -- Step3: trigger render.
  _trigger c Cycle.RENDER []
  -- Step4: mark __mounted = true
  M.modify (fun s => if !s.__mounted then { s with __mounted := true } else s)
  -- Step5: create prevProps and prevState reference
  M.modify (fun s => { s with prevProps := s.props })
  M.modify (fun s => { s with prevState := s.state })

/-- The expression `this.__forceUpdate || this.shouldComponentUpdate ?
this.shouldComponentUpdate(nextProps, nextState) : true`: the conditional operator binds
weaker than the disjunction, so the disjunction is its condition. -/
def decideShouldUpdate (c : Code) (forceUpdate nextProps nextState : Value) : M Value :=
  if forceUpdate.truthy || c.shouldComponentUpdate.isSome then
    match c.shouldComponentUpdate with
    | some shouldComponentUpdate => pure (shouldComponentUpdate nextProps nextState)
    | none => M.throw Err.typeError
  else pure (Value.bool true)

/-- The locals of an update pass. -/
structure Pass where
  nextProps : Value
  prevProps : Value
  nextState : Value
  prevState : Value

/-- Steps 2 to 4 of `_updateComponent()`: make props to prevProps and trigger
willReceiveProps, collect the pending state, apply `getDerivedStateFromProps`. -/
def prepareUpdate (c : Code) : M Pass := do
  let self ← M.self
  -- Step2: make props to prevProps, and trigger willReceiveProps
  let nextProps := self.nextProps.or self.props
  let prevProps := self.prevProps.or self.props
  M.modify (fun s => { s with props := prevProps })
  if !shallowEqual prevProps nextProps then
    _trigger c Cycle.COMPONENT_WILL_RECEIVE_PROPS [nextProps]
  -- Step3: collect pending state
  let collected ← _collectState c
  let self ← M.self
  let prevState := self.prevState.or self.state
  -- Step4: update state if defined getDerivedStateFromProps
  let stateFromProps ← deriveState c nextProps collected
  -- if null, means not to update state.
  let nextState := stateFromProps.getD collected
  pure ⟨nextProps, prevProps, nextState, prevState⟩

/-- Step 8 of `_updateComponent()`, the body of `if (this.__shouldUpdate)`. -/
def commitUpdate (c : Code) (p : Pass) : M Unit := do
  _trigger c Cycle.COMPONENT_WILL_UPDATE [p.nextProps, p.nextState]
  -- Set prev props & state before update
  M.modify (fun s => { s with prevProps := s.props })
  M.modify (fun s => { s with prevState := s.state })
  -- Update propsMap
  let self ← M.self
  M.emit (Event.setComponentProps self.instanceId)
  M.modify (fun s => { s with props := p.nextProps })
  M.modify (fun s => { s with state := p.nextState })
  -- Set forwardRef & prevForWardRef
  M.modify (fun s => { s with __prevForwardRef := s._forwardRef })
  match getProp p.nextProps "ref" with
  | none => M.throw Err.typeError
  | some ref => do
    M.modify (fun s => { s with _forwardRef := ref })
    M.modify (fun s => { s with __forceUpdate := Value.bool false })
    _trigger c Cycle.RENDER []
    _trigger c Cycle.COMPONENT_DID_UPDATE [p.prevProps, p.prevState]

/-- Method `_updateComponent()`. -/
def _updateComponent (c : Code) : M Unit := do
  let self ← M.self
  if !self.__mounted then pure ()
  else do
    let p ← prepareUpdate c
    -- Step5: judge shouldComponentUpdate
    let self ← M.self
    let shouldUpdate ← decideShouldUpdate c self.__forceUpdate p.nextProps p.nextState
    M.modify (fun s => { s with __shouldUpdate := shouldUpdate })
    -- Step8: trigger render
    if shouldUpdate.truthy then commitUpdate c p

/-- Method `forceUpdate(callback)`. -/
def forceUpdate (c : Code) (callback : Value) : M Unit := do
  if isFunction callback then
    M.modify (fun s => { s with _pendingCallbacks := s._pendingCallbacks ++ [callback] })
  _updateComponent c

/-- Method `_unmountComponent()`. -/
def _unmountComponent (c : Code) : M Unit := do
  _trigger c Cycle.COMPONENT_WILL_UNMOUNT []
  -- Clean up hooks
  let self ← M.self
  M.emitAll (self.hooks.filterMap (fun hook => hook.map Event.hookDestory))
  match self._internal with
  | none => M.throw Err.typeError
  | some _ => do
    M.modify (fun s => { s with _internal := none })
    M.modify (fun s => { s with __mounted := false })
    M.emit (Event.removeComponentProps self.instanceId)

/-- The listener `contextUpdater(newContext)` that `_readContext` subscribes to the
emitter of the dependency stored under `contextProp`; the emitter calls it when it
notifies. Without such a dependency there is no listener. -/
def contextUpdater (c : Code) (contextProp : String) (newContext : Value) : M Unit := fun w =>
  match w.self.__dependencies.find? (fun e => e.1 == contextProp) with
  | none => (.ok (), w)
  | some contextItem =>
    if !is newContext contextItem.2.renderedContext then
      ( do
          M.modify (fun s => { s with __shouldUpdate := Value.bool true })
          _updateComponent c : M Unit ) w
    else (.ok (), w)

/-! ## Specification-side definitions -/

/-- One step of the fold the specification describes for `collectState()`: "if the entry
is callable, invoke it with `(accumulatedState, props)` and shallow-merge its return into
the snapshot; otherwise shallow-merge the entry directly". -/
def mergeEntry (c : Code) (props : Value) (ref : Nat) (acc : Fields) (entry : Value) :
    Except Value Fields :=
  if isFunction entry then
    match c.call entry (Value.obj ref acc) props with
    | .ok result => .ok (assign acc result)
    | .error e => .error e
  else .ok (assign acc entry)

/-- The specification of `collectState()`: "folding the entries left-to-right over the
prior state via shallow-merge", starting from a copy of the prior state. -/
def foldEntries (c : Code) (props : Value) (ref : Nat) (prior : Value) (entries : List Value) :
    Except Value Fields :=
  entries.foldlM (mergeEntry c props ref) (assign [] prior)

/-- The calls the specification lists for firing a lifecycle event: "the instance's own
same-named method, if defined", then the "locally registered hooks for that event", then
the "page-level hooks", each "with the same arguments". -/
def cycleEvents (c : Code) (self : Component) (cycle : Cycle) (args : List Value) : List Event :=
  (if c.own cycle then [Event.own cycle args] else [])
    ++ (cyclesOf self._cycles cycle).flatMap (runHook cycle args)
    ++ (c.pageCycles self.instanceId cycle).map (fun fn => Event.pageHook cycle fn args)

/-- The table `_cycles` after the registrations `regs`, a list of calls
`_registerLifeCycle(cycle, fn)`, made in order on the table `table`. -/
def registerAll (table : List (Cycle × List Hook)) (regs : List (Cycle × Hook)) :
    List (Cycle × List Hook) :=
  regs.foldl (fun t r => registerLifeCycle t r.1 r.2) table

/-- The hooks that the registrations `regs` register for `cycle`, in registration order. -/
def registeredFor (regs : List (Cycle × Hook)) (cycle : Cycle) : List Hook :=
  (regs.filter (fun r => r.1 = cycle)).map Prod.snd

/-- The calls that invoke every callback of the queue `[c1, ..., cn]` once, in the LIFO
order `cn, ..., c1`. -/
def callbackCalls (queue : List Value) : List Event :=
  queue.reverse.filterMap (fun callback =>
    match callback with
    | Value.func ref => some (Event.callback ref)
    | _ => none)

/-- The world after step 2 of an update pass: `props` is the baseline and the
will-receive-props callbacks have been called if the next props differ from it. -/
def afterStep2 (c : Code) (w : World) : World :=
  { w with
    events := w.events ++
      (if shallowEqual (w.self.prevProps.or w.self.props) (w.self.nextProps.or w.self.props)
        then []
        else cycleEvents c w.self Cycle.COMPONENT_WILL_RECEIVE_PROPS
          [w.self.nextProps.or w.self.props]),
    self := { w.self with props := w.self.prevProps.or w.self.props } }

namespace Event

/-- Whether the call invokes a pending callback. -/
def isCallback : Event → Bool
  | callback _ => true
  | _ => false

/-- The lifecycle event a call belongs to, if it is a lifecycle callback or the render. -/
def fired : Event → Option Cycle
  | own cycle _ => some cycle
  | hook cycle _ _ => some cycle
  | pageHook cycle _ _ => some cycle
  | render _ _ => some Cycle.RENDER
  | _ => none

/-- Whether the call is a write to the host view. -/
def isHostWrite : Event → Bool
  | setData _ => true
  | spliceData _ => true
  | hostSet _ _ => true
  | _ => false

end Event

/-- Whether a call is neither the render, nor a will-update or did-update callback, nor a
write to the host view. -/
def quiet (e : Event) : Bool :=
  e.fired != some Cycle.RENDER
    && e.fired != some Cycle.COMPONENT_WILL_UPDATE
    && e.fired != some Cycle.COMPONENT_DID_UPDATE
    && !e.isHostWrite

/-- Whether the host's data holds `$ready = true`. -/
def holdsReady (host : Host) : Bool :=
  (getFieldD host.data "$ready").strictEq (Value.bool true)

/-- A merging host's data after the calls one `_setData` made: `setData(patch)` merges the
patch into the data, `$spliceData(patch)` is applied by `splice`, and any other call
leaves the data as it is. -/
def hostReact (splice : Fields → Fields → Fields) (data : Fields) : List Event → Fields
  | [] => data
  | Event.setData patch :: rest =>
    hostReact splice (patch.foldl (fun acc e => setField acc e.1 e.2) data) rest
  | Event.spliceData patch :: rest => hostReact splice (splice data patch) rest
  | _ :: rest => hostReact splice data rest

/-- One round on a merging host: `_updateData(data)`, then the host applies the calls it
received, then the host calls complete and the continuation of `_setData` runs. -/
def round (c : Code) (splice : Fields → Fields → Fields) (d : Nat × Fields) : M Unit := fun w =>
  let r := _updateData c d.1 d.2 w
  let calls := r.2.events.drop w.events.length
  let w1 : World :=
    { r.2 with
      self := { r.2.self with
        _internal := r.2.self._internal.map
          (fun host => { host with data := hostReact splice host.data calls }) } }
  match r.1 with
  | .ok _ => settle c w1
  | .error e => (.error e, w1)

/-- A sequence of rounds on a merging host, one for each rendered data bag. -/
def rounds (c : Code) (splice : Fields → Fields → Fields) : List (Nat × Fields) → M Unit
  | [] => M.ret ()
  | d :: rest => (round c splice d).bind (fun _ => rounds c splice rest)

/-- The state an update pass commits, given the collected state: a copy, in the fresh
object `ref`, of what `getDerivedStateFromProps(nextProps, collected)` returns when the
hook is configured and returns a truthy value, and the collected state otherwise. -/
def passState (c : Code) (nextProps collected : Value) (ref : Nat) : Value :=
  match c.getDerivedStateFromProps with
  | some getDerivedStateFromProps =>
    if (getDerivedStateFromProps nextProps collected).truthy then
      Value.obj ref (assign [] (getDerivedStateFromProps nextProps collected))
    else collected
  | none => collected

/-! ## Sample inputs -/

/-- A component whose updater `func 1` counts in the field `n`, whose updater `func 2`
throws, and whose render hands its props and state to `_updateData`. -/
def sampleCode : Code where
  isQuickApp := false
  TAGID := "tagId"
  call := fun f state _ =>
    match f with
    | Value.func 1 =>
      .ok (Value.obj 50 [("n",
        match getFieldD (ownEntries state) "n" with
        | Value.num k => Value.num (k + 1)
        | _ => Value.num 1)])
    | Value.func 2 => .error (Value.str "boom")
    | _ => .ok Value.undefined
  render := some (fun props state => some [("p", props), ("s", state)])
  shouldComponentUpdate := none
  getDerivedStateFromProps := none
  own := fun _ => true
  contextType := none
  pageCycles := fun _ _ => []

/-- A host view that offers `$spliceData` and holds `data`. -/
def spliceHost (data : Fields) : Host := ⟨9, data, [], true, false⟩

/-- A freshly constructed instance with props `{x: 1}`, attached to a host view that
offers `$spliceData` and holds no data yet. The objects of the samples have references
below 100; the runtime allocates from 100 on. -/
def sampleWorld : World where
  self :=
    { construct (Value.obj 1 [("x", Value.num 1)]) (Value.str "page") 2 with
      _internal := some (spliceHost []) }
  events := []
  commits := []
  emitters := []
  hostCurrent := false
  fresh := 100

/-- The sample world with the given pending states. -/
def withPending (w : World) (queue : List Value) : World :=
  { w with self := { w.self with _pendingStates := queue } }

/-- The sample world after `setState(0)` and then `setState({a: 1})`. -/
def afterTwoSetStates : World :=
  ((do
      setState (Value.num 0) Value.undefined
      setState (Value.obj 5 [("a", Value.num 1)]) Value.undefined : M Unit) sampleWorld).2

/-- The world with the instance attached to the host view `host`. -/
def onHost (w : World) (host : Host) : World :=
  { w with self := { w.self with _internal := some host } }

/-- A host view that holds the mapping `o = {a: 1, b: 2}` and the number `n = 4`. -/
def mappingHost : Host :=
  spliceHost [("o", Value.obj 7 [("a", Value.num 1), ("b", Value.num 2)]), ("n", Value.num 4)]

/-- Rendered data with `o = {b: 3}` and `n = 5`. -/
def mappingData : Fields := [("o", Value.obj 8 [("b", Value.num 3)]), ("n", Value.num 5)]

/-- A host view that holds `list = [1, 2, 3]`. -/
def shrinkHost : Host :=
  spliceHost [("list", Value.arr 3 [Value.num 1, Value.num 2, Value.num 3])]

/-- Rendered data with the shorter `list = [1, 2]`. -/
def shrinkData : Fields := [("list", Value.arr 4 [Value.num 1, Value.num 2])]

/-- A host view that holds `list = [1, 2]`. -/
def sameHost : Host := spliceHost [("list", Value.arr 3 [Value.num 1, Value.num 2])]

/-- Rendered data with two elements appended, `list = [1, 2, "x", "y"]`. -/
def appendData : Fields :=
  [("list", Value.arr 4 [Value.num 1, Value.num 2, Value.str "x", Value.str "y"])]

/-- Rendered data with an array of the same two elements, `list = [1, 2]`. -/
def sameData : Fields := [("list", Value.arr 4 [Value.num 1, Value.num 2])]

/-- The sample world after mount. -/
def mountedWorld (c : Code) : World := (_mountComponent c sampleWorld).2

/-- The sample world after mount and unmount. -/
def unmountedWorld : World := (_unmountComponent sampleCode (mountedWorld sampleCode)).2

/-- The sample component with a `shouldComponentUpdate` that always returns false. -/
def vetoCode : Code :=
  { sampleCode with shouldComponentUpdate := some (fun _ _ => Value.bool false) }

/-- The sample world after mount, with the force-update flag set. -/
def forcedWorld (c : Code) : World :=
  { mountedWorld c with
    self := { (mountedWorld c).self with __forceUpdate := Value.bool true } }

/-- The sample component with a `shouldComponentUpdate` that returns false exactly when
the next state has a truthy field `skip`. -/
def gatedCode : Code :=
  { sampleCode with
    shouldComponentUpdate :=
      some (fun _ nextState => Value.bool (!(getFieldD (ownEntries nextState) "skip").truthy)) }

/-- The props registry hands next props to the instance: it writes the field `nextProps`
that `_updateComponent` reads. -/
def receiveProps (nextProps : Value) : M Unit :=
  M.modify (fun s => { s with nextProps := nextProps })

/-- The sample world after mount with props `{x: 1}` and one update pass that received
the props `{x: 2}`. -/
def afterPropsUpdate (c : Code) : World :=
  ((do
      _mountComponent c
      receiveProps (Value.obj 20 [("x", Value.num 2)])
      _updateComponent c : M Unit) sampleWorld).2

/-- The world `afterPropsUpdate` after `setState({skip: true})`. -/
def beforeSkippedPass : World :=
  (setState (Value.obj 21 [("skip", Value.bool true)]) Value.undefined
    (afterPropsUpdate gatedCode)).2

/-- The sample world after mount and `setState({skip: true})`. -/
def skippedAfterMount : World :=
  (setState (Value.obj 21 [("skip", Value.bool true)]) Value.undefined
    (mountedWorld gatedCode)).2

/-- The sample world after three registrations: hooks 11 and 13 for did-update, hook 12
for show. -/
def hookedWorld : World :=
  ((do
      _registerLifeCycle Cycle.COMPONENT_DID_UPDATE (Hook.user 11)
      _registerLifeCycle Cycle.ON_SHOW (Hook.user 12)
      _registerLifeCycle Cycle.COMPONENT_DID_UPDATE (Hook.user 13) : M Unit) sampleWorld).2

/-- The sample component with the page-level hooks 21 and 22 registered for did-update
under the identity `"page"`. -/
def pagedCode : Code :=
  { sampleCode with
    pageCycles := fun pageId cycle =>
      match pageId, cycle with
      | Value.str "page", Cycle.COMPONENT_DID_UPDATE => [21, 22]
      | _, _ => [] }

/-- The world with the given pending callbacks. -/
def withCallbacks (w : World) (queue : List Value) : World :=
  { w with self := { w.self with _pendingCallbacks := queue } }

/-- The sample component without a render method. -/
def renderlessCode : Code := { sampleCode with render := none }

/-- The mounted sample world with the pending queue `[{a: 1}, f, {a: 2}]`, where the
updater `f` throws. -/
def throwingWorld : World :=
  withPending (mountedWorld sampleCode)
    [Value.obj 5 [("a", Value.num 1)], Value.func 2, Value.obj 6 [("a", Value.num 2)]]

/-- The sample component with the context type `theme`, read from emitter 7. -/
def themedCode : Code := { sampleCode with contextType := some ⟨"theme", 7⟩ }

/-- The sample world after mount of the themed component, with the emitter holding the
object `{a: 1}` of reference 30: the instance has read the context. -/
def themedWorld : World :=
  (_mountComponent themedCode
    { sampleWorld with emitters := [(7, Value.obj 30 [("a", Value.num 1)])] }).2

/-- The sample component in the constrained mode (quick app). -/
def quickCode : Code := { sampleCode with isQuickApp := true }

/-- A host view without `$spliceData` and without any property of its own yet. -/
def quickHost : Host := ⟨9, [], [], false, false⟩

/-- One commit: `_updateData(data)` followed by the completion of its host calls. -/
def commitRound (c : Code) (dataRef : Nat) (data : Fields) : M Unit := do
  _updateData c dataRef data
  settle c

/-- The sample world on the quick-app host after the first commit. -/
def quickFirst : World :=
  (commitRound quickCode 200 [("n", Value.num 1)] (onHost sampleWorld quickHost)).2

/-- The sample world on the quick-app host after the second commit. -/
def quickSecond : World :=
  (commitRound quickCode 201 [("n", Value.num 1)] quickFirst).2

/-- The mounted sample world after `setState(0)` and then `setState({a: 1})`. -/
def mountedWithFalsyEntry : World :=
  ((do
      setState (Value.num 0) Value.undefined
      setState (Value.obj 5 [("a", Value.num 1)]) Value.undefined : M Unit)
    (mountedWorld sampleCode)).2

/-- The mounted sample world after `setState({a: 1})` and an update pass. -/
def afterFirstStatePass : World :=
  ((do
      setState (Value.obj 5 [("a", Value.num 1)]) Value.undefined
      _updateComponent sampleCode : M Unit) (mountedWorld sampleCode)).2

/-- The world `afterFirstStatePass` after `setState({a: 2})`, before the second pass. -/
def beforeSecondStatePass : World :=
  (setState (Value.obj 6 [("a", Value.num 2)]) Value.undefined afterFirstStatePass).2

/-- The mounted sample world with the pending queue `[{a: 1}, f]`, where the updater `f`
counts in `n`. -/
def twoEntries : World :=
  withPending (mountedWorld sampleCode) [Value.obj 5 [("a", Value.num 1)], Value.func 1]

/-! # Theorems -/

/-! ## Pending state -/

theorem truthy_of_plain_or_function (e : Value)
    (h : isPlainObject e = true ∨ isFunction e = true) :
    e.truthy = true ∧ isNull e = false := by
  cases e <;> simp_all [isPlainObject, isFunction, Value.truthy, isNull]

theorem collectLoop_eq_fold (c : Code) (props : Value) (ref : Nat) :
    ∀ (queue : List Value) (acc s : Fields),
      (∀ e ∈ queue, isPlainObject e = true ∨ isFunction e = true) →
      queue.foldlM (mergeEntry c props ref) acc = .ok s →
      collectLoop c props ref acc queue = (.ok s, []) := by
  intro queue
  induction queue with
  | nil =>
    intro acc s _ h
    simp [List.foldlM, pure, Except.pure] at h
    simp [collectLoop, h]
  | cons e rest ih =>
    intro acc s hq h
    have he := truthy_of_plain_or_function e (hq e (List.mem_cons_self _ _))
    have hrest : ∀ x ∈ rest, isPlainObject x = true ∨ isFunction x = true :=
      fun x hx => hq x (List.mem_cons_of_mem _ hx)
    rw [List.foldlM_cons] at h
    unfold collectLoop
    simp only [he.1, he.2, Bool.not_true, Bool.false_eq_true, if_false]
    by_cases hf : isFunction e = true
    · simp only [hf, if_true]
      simp only [mergeEntry, hf, if_true] at h
      cases hc : c.call e (Value.obj ref acc) props with
      | ok r =>
        rw [hc] at h
        exact ih _ _ hrest h
      | error x =>
        rw [hc] at h
        simp [bind, Except.bind] at h
    · simp only [hf, if_false]
      simp only [mergeEntry, hf, if_false] at h
      exact ih _ _ hrest h

/-- C1: when the pending queue holds only plain objects and updater functions and the
left-to-right fold of its entries over a copy of the prior state yields the bag `s`
(each object entry shallow-merged, each updater called with the accumulated state and the
props and its result shallow-merged), `_collectState` returns the fresh object with
fields `s`, leaves `_pendingStates` empty, and changes nothing else of the instance; in
particular not its `state` field. -/
theorem collectState_folds_entries (c : Code) (w : World) (s : Fields)
    (hq : ∀ e ∈ w.self._pendingStates, isPlainObject e = true ∨ isFunction e = true)
    (hfold : foldEntries c w.self.props w.fresh w.self.state w.self._pendingStates = .ok s) :
    _collectState c w =
        (.ok (Value.obj w.fresh s),
          { w with fresh := w.fresh + 1, self := { w.self with _pendingStates := [] } })
      ∧ (_collectState c w).2.self._pendingStates = []
      ∧ (_collectState c w).2.self.state = w.self.state := by
  have h := collectLoop_eq_fold c w.self.props w.fresh w.self._pendingStates _ s hq hfold
  have hmain : _collectState c w =
      (.ok (Value.obj w.fresh s),
        { w with fresh := w.fresh + 1, self := { w.self with _pendingStates := [] } }) := by
    simp only [_collectState, h]
  refine ⟨hmain, ?_, ?_⟩ <;> rw [hmain]

/-- Witness of C1: the queue `[{a: 1}, f, f, {a: 2}]`, where `f` counts in `n`, over the
empty prior state gives `{a: 2, n: 2}` and leaves the queue empty. -/
theorem collectState_folds_entries_witness :
    _collectState sampleCode
        (withPending sampleWorld
          [Value.obj 5 [("a", Value.num 1)], Value.func 1, Value.func 1,
            Value.obj 6 [("a", Value.num 2)]]) =
      (.ok (Value.obj 100 [("a", Value.num 2), ("n", Value.num 2)]),
        { withPending sampleWorld [] with fresh := 101 }) :=
  (collectState_folds_entries sampleCode
    (withPending sampleWorld
      [Value.obj 5 [("a", Value.num 1)], Value.func 1, Value.func 1,
        Value.obj 6 [("a", Value.num 2)]])
    [("a", Value.num 2), ("n", Value.num 2)]
    (by decide) rfl).1

/-- C9, the code at the failing input: `setState(0)` followed by `setState({a: 1})`
builds the queue `[0, {a: 1}]`; `_collectState` then returns normally with the prior
state unchanged and leaves `{a: 1}` in the queue, because the loop condition
`parialState = this._pendingStates.shift()` ends the loop at the falsy entry `0`. -/
theorem collectState_stops_at_falsy_entry :
    afterTwoSetStates.self._pendingStates = [Value.num 0, Value.obj 5 [("a", Value.num 1)]]
      ∧ (_collectState sampleCode afterTwoSetStates).1 = .ok (Value.obj 100 [])
      ∧ (_collectState sampleCode afterTwoSetStates).2.self._pendingStates =
          [Value.obj 5 [("a", Value.num 1)]] :=
  ⟨rfl, rfl, rfl⟩

/-! ## Property bags and the patch builder -/

theorem getField_setField_same (fs : Fields) (k : String) (v : Value) :
    getField (setField fs k v) k = some v := by
  induction fs with
  | nil => simp [setField, getField, List.find?]
  | cons e rest ih =>
    obtain ⟨k0, v0⟩ := e
    unfold setField
    by_cases h : (k0 == k) = true
    · simp [h, getField, List.find?]
    · simp only [h, if_false]
      simp only [getField, List.find?, h] at ih ⊢
      exact ih

theorem getField_setField_ne (fs : Fields) (k k1 : String) (v : Value) (hne : k1 ≠ k) :
    getField (setField fs k1 v) k = getField fs k := by
  induction fs with
  | nil =>
    have : (k1 == k) = false := by simpa using hne
    simp [setField, getField, List.find?, this]
  | cons e rest ih =>
    obtain ⟨k0, v0⟩ := e
    unfold setField
    by_cases h : (k0 == k1) = true
    · have hk : k0 = k1 := by simpa using h
      subst hk
      have : (k0 == k) = false := by simpa using hne
      simp [h, getField, List.find?, this]
    · simp only [h, if_false]
      by_cases h2 : (k0 == k) = true
      · simp [getField, List.find?, h2]
      · simp only [getField, List.find?, h2] at ih ⊢
        exact ih

theorem mem_keys_of_getField (fs : Fields) (k : String) (v : Value)
    (h : getField fs k = some v) : k ∈ fs.map Prod.fst := by
  induction fs with
  | nil => simp [getField] at h
  | cons e rest ih =>
    obtain ⟨k0, v0⟩ := e
    by_cases h2 : (k0 == k) = true
    · have : k0 = k := by simpa using h2
      simp [this]
    · simp only [getField, List.find?, h2] at h ih
      simp only [List.map_cons, List.mem_cons]
      exact Or.inr (ih h)

theorem every_of_forall₂ (old p : List Value)
    (h : List.Forall₂ (fun a b => a.strictEq b = true) old p) :
    ∀ pre : List Value,
      every (fun val i => (index (pre ++ old) i).strictEq val) p pre.length = true := by
  induction h with
  | nil => intro pre; simp [every]
  | @cons a b old1 p1 hab _ ih =>
    intro pre
    unfold every
    have h1 : index (pre ++ a :: old1) pre.length = a := by
      rw [index, List.getD_eq_getElem?_getD, List.getElem?_append_right (le_refl _)]
      simp
    have h2 := ih (pre ++ [a])
    simp only [List.append_assoc, List.singleton_append, List.length_append,
      List.length_singleton] at h2
    simp [h1, hab, h2]

theorem diffArray_of_append (ref : Nat) (old p s : List Value)
    (h : List.Forall₂ (fun a b => a.strictEq b = true) old p) (hs : s ≠ []) :
    diffArray (Value.arr ref old) (p ++ s) = true := by
  have hlen : old.length = p.length := h.length_eq
  have hev := every_of_forall₂ old p h []
  simp only [List.nil_append, List.length_nil] at hev
  unfold diffArray
  have h0 : ¬ (p ++ s).length = 0 := by
    simp [hs]
  simp only [beq_iff_eq, h0, if_false]
  by_cases h1 : old.length = 0
  · simp [h1]
  · simp [h1, hlen, hev]

theorem classifyKey_arrayData_ne (cur data : Fields) (b : Batches) (k1 key : String)
    (hne : k1 ≠ key) :
    getField (classifyKey cur data b k1).arrayData key = getField b.arrayData key := by
  unfold classifyKey
  simp only
  split
  · exact getField_setField_ne _ _ _ _ hne
  · split
    · split <;> rfl
    · rfl

theorem classifyKey_normalData_ne (cur data : Fields) (b : Batches) (k1 key : String)
    (hne : k1 ≠ key) :
    getField (classifyKey cur data b k1).normalData key = getField b.normalData key := by
  unfold classifyKey
  simp only
  split
  · rfl
  · split
    · split <;> exact getField_setField_ne _ _ _ _ hne
    · rfl

theorem foldl_arrayData_written (cur data : Fields) (key : String) (P : Value → Prop)
    (hw : ∀ b, ∃ v, P v ∧ getField (classifyKey cur data b key).arrayData key = some v) :
    ∀ (ks : List String) (b : Batches),
      (key ∈ ks ∨ ∃ v, P v ∧ getField b.arrayData key = some v) →
      ∃ v, P v ∧ getField (ks.foldl (classifyKey cur data) b).arrayData key = some v := by
  intro ks
  induction ks with
  | nil =>
    intro b h
    rcases h with h | h
    · simp at h
    · simpa using h
  | cons k rest ih =>
    intro b h
    rw [List.foldl_cons]
    apply ih
    by_cases hk : k = key
    · subst hk
      exact Or.inr (hw b)
    · rcases h with h | h
      · rcases List.mem_cons.mp h with h | h
        · exact absurd h.symm hk
        · exact Or.inl h
      · right
        rw [classifyKey_arrayData_ne cur data b k key hk]
        exact h

theorem foldl_normalData_written (cur data : Fields) (key : String) (P : Value → Prop)
    (hw : ∀ b, ∃ v, P v ∧ getField (classifyKey cur data b key).normalData key = some v) :
    ∀ (ks : List String) (b : Batches),
      (key ∈ ks ∨ ∃ v, P v ∧ getField b.normalData key = some v) →
      ∃ v, P v ∧ getField (ks.foldl (classifyKey cur data) b).normalData key = some v := by
  intro ks
  induction ks with
  | nil =>
    intro b h
    rcases h with h | h
    · simp at h
    · simpa using h
  | cons k rest ih =>
    intro b h
    rw [List.foldl_cons]
    apply ih
    by_cases hk : k = key
    · subst hk
      exact Or.inr (hw b)
    · rcases h with h | h
      · rcases List.mem_cons.mp h with h | h
        · exact absurd h.symm hk
        · exact Or.inl h
      · right
        rw [classifyKey_normalData_ne cur data b k key hk]
        exact h

theorem foldl_normalData_kept (cur data : Fields) (key : String)
    (hk : ∀ b, getField (classifyKey cur data b key).normalData key = getField b.normalData key) :
    ∀ (ks : List String) (b : Batches),
      getField (ks.foldl (classifyKey cur data) b).normalData key = getField b.normalData key := by
  intro ks
  induction ks with
  | nil => intro b; rfl
  | cons k rest ih =>
    intro b
    rw [List.foldl_cons, ih]
    by_cases h : k = key
    · subst h; exact hk b
    · exact classifyKey_normalData_ne cur data b k key h

theorem foldl_arrayData_kept (cur data : Fields) (key : String)
    (hk : ∀ b, getField (classifyKey cur data b key).arrayData key = getField b.arrayData key) :
    ∀ (ks : List String) (b : Batches),
      getField (ks.foldl (classifyKey cur data) b).arrayData key = getField b.arrayData key := by
  intro ks
  induction ks with
  | nil => intro b; rfl
  | cons k rest ih =>
    intro b
    rw [List.foldl_cons, ih]
    by_cases h : k = key
    · subst h; exact hk b
    · exact classifyKey_arrayData_ne cur data b k key h


theorem setData_events_of_splice_host (c : Code) (dataRef : Nat) (data : Fields) (w : World)
    (host : Host) (hint : w.self._internal = some host) (hsplice : host.hasSpliceData = true)
    (hne : isEmptyObj (classify host.data data w.fresh).normalData = false
      ∨ isEmptyObj (classify host.data data w.fresh).arrayData = false) :
    (_setData c dataRef data w).1 = .ok ()
      ∧ (_setData c dataRef data w).2.events =
        w.events
          ++ (if isEmptyObj (classify host.data data w.fresh).normalData then []
              else [Event.setData (classify host.data data w.fresh).normalData])
          ++ (if isEmptyObj (classify host.data data w.fresh).arrayData then []
              else [Event.spliceData (classify host.data data w.fresh).arrayData]) := by
  unfold _setData
  simp only [hint, plan, hsplice, if_true]
  cases h1 : isEmptyObj (classify host.data data w.fresh).normalData <;>
    cases h2 : isEmptyObj (classify host.data data w.fresh).arrayData <;>
    simp_all [invokeTasks, invokeTask]

/-- C4: on a host that offers `$spliceData`, when the current value of `key` is the array
`old` and the rendered value is `p ++ s` with `p` strictly identical to `old` element for
element and `s` non-empty, `_setData` returns normally, puts `key` in the splice batch
with payload `[old.length, 0]` followed by the elements of `s`, does not put it in the
replace batch, and hands the splice batch to `$spliceData`. -/
theorem setData_append_is_splice (c : Code) (dataRef : Nat) (data : Fields) (w : World)
    (host : Host) (key : String) (oldRef newRef : Nat) (old p s : List Value)
    (hint : w.self._internal = some host) (hsplice : host.hasSpliceData = true)
    (hcur : getField host.data key = some (Value.arr oldRef old))
    (hnew : getField data key = some (Value.arr newRef (p ++ s)))
    (hsame : List.Forall₂ (fun a b => a.strictEq b = true) old p)
    (hs : s ≠ []) :
    (∃ ref, getField (classify host.data data w.fresh).arrayData key =
        some (Value.arr ref ([Value.num old.length, Value.num 0] ++ s)))
      ∧ getField (classify host.data data w.fresh).normalData key = none
      ∧ (_setData c dataRef data w).1 = .ok ()
      ∧ (_setData c dataRef data w).2.events =
        w.events
          ++ (if isEmptyObj (classify host.data data w.fresh).normalData then []
              else [Event.setData (classify host.data data w.fresh).normalData])
          ++ [Event.spliceData (classify host.data data w.fresh).arrayData] := by
  have hd := diffArray_of_append oldRef old p s hsame hs
  have hlen : old.length = p.length := hsame.length_eq
  have hstep : ∀ b : Batches, classifyKey host.data data b key =
      { b with
        arrayData := setField b.arrayData key
          (Value.arr b.fresh ([Value.num old.length, Value.num 0] ++ s)),
        fresh := b.fresh + 1 } := by
    intro b
    simp [classifyKey, getFieldD, hcur, hnew, isArray, items, hd, lengthOf, sliceStart, hlen]
  have harr := foldl_arrayData_written host.data data key
    (fun v => ∃ ref, v = Value.arr ref ([Value.num old.length, Value.num 0] ++ s))
    (fun b => ⟨_, ⟨b.fresh, rfl⟩, by rw [hstep b]; exact getField_setField_same _ _ _⟩)
    (data.map Prod.fst) ⟨[], [], w.fresh⟩ (Or.inl (mem_keys_of_getField _ _ _ hnew))
  obtain ⟨v, ⟨ref, rfl⟩, hv⟩ := harr
  have hnorm := foldl_normalData_kept host.data data key
    (fun b => by rw [hstep b]) (data.map Prod.fst) ⟨[], [], w.fresh⟩
  have hnonempty : isEmptyObj (classify host.data data w.fresh).arrayData = false := by
    unfold classify isEmptyObj
    cases hcase : (List.foldl (classifyKey host.data data) ⟨[], [], w.fresh⟩
      (data.map Prod.fst)).arrayData with
    | nil => rw [hcase] at hv; simp [getField] at hv
    | cons _ _ => rfl
  have hev := setData_events_of_splice_host c dataRef data w host hint hsplice (Or.inr hnonempty)
  refine ⟨⟨ref, hv⟩, ?_, hev.1, ?_⟩
  · rw [classify, hnorm]
    rfl
  · rw [hev.2, hnonempty]
    simp

/-- Witness of C4: with `list = [1, 2]` on the host and `[1, 2, "x", "y"]` rendered, the
splice batch holds `list` with payload `[2, 0, "x", "y"]`, the replace batch does not hold
it, and the one host call is `$spliceData`. -/
theorem setData_append_is_splice_witness :
    (∃ ref, getField (classify sameHost.data appendData 100).arrayData "list" =
        some (Value.arr ref [Value.num 2, Value.num 0, Value.str "x", Value.str "y"]))
      ∧ getField (classify sameHost.data appendData 100).normalData "list" = none
      ∧ (_setData sampleCode 0 appendData (onHost sampleWorld sameHost)).2.events =
          [Event.spliceData (classify sameHost.data appendData 100).arrayData] :=
  ⟨(setData_append_is_splice sampleCode 0 appendData (onHost sampleWorld sameHost) sameHost
      "list" 3 4 [Value.num 1, Value.num 2] [Value.num 1, Value.num 2]
      [Value.str "x", Value.str "y"] rfl rfl rfl rfl
      (List.Forall₂.cons rfl (List.Forall₂.cons rfl List.Forall₂.nil))
      (List.cons_ne_nil _ _)).1,
    (setData_append_is_splice sampleCode 0 appendData (onHost sampleWorld sameHost) sameHost
      "list" 3 4 [Value.num 1, Value.num 2] [Value.num 1, Value.num 2]
      [Value.str "x", Value.str "y"] rfl rfl rfl rfl
      (List.Forall₂.cons rfl (List.Forall₂.cons rfl List.Forall₂.nil))
      (List.cons_ne_nil _ _)).2.1,
    (setData_append_is_splice sampleCode 0 appendData (onHost sampleWorld sameHost) sameHost
      "list" 3 4 [Value.num 1, Value.num 2] [Value.num 1, Value.num 2]
      [Value.str "x", Value.str "y"] rfl rfl rfl rfl
      (List.Forall₂.cons rfl (List.Forall₂.cons rfl List.Forall₂.nil))
      (List.cons_ne_nil _ _)).2.2.2⟩

theorem getField_eq_none_of_not_mem (fs : Fields) (k : String)
    (h : k ∉ fs.map Prod.fst) : getField fs k = none := by
  induction fs with
  | nil => rfl
  | cons e rest ih =>
    obtain ⟨k0, v0⟩ := e
    simp only [List.map_cons, List.mem_cons, not_or] at h
    have h0 : (k0 == k) = false := by simpa using fun h1 => h.1 h1.symm
    simp only [getField, List.find?, h0] at ih ⊢
    exact ih h.2

theorem getField_foldl_setField (k : String) :
    ∀ (src target : Fields), (src.map Prod.fst).Nodup →
      getField (src.foldl (fun acc e => setField acc e.1 e.2) target) k =
        match getField src k with
        | some v => some v
        | none => getField target k := by
  intro src
  induction src with
  | nil => intro target _; rfl
  | cons e rest ih =>
    intro target hnd
    obtain ⟨k0, v0⟩ := e
    simp only [List.map_cons, List.nodup_cons] at hnd
    rw [List.foldl_cons, ih _ hnd.2]
    by_cases hk : k0 = k
    · subst hk
      have h1 := getField_eq_none_of_not_mem rest k0 hnd.1
      have h2 : getField ((k0, v0) :: rest) k0 = some v0 := by
        simp [getField, List.find?]
      rw [h1, h2]
      exact getField_setField_same _ _ _
    · have h0 : (k0 == k) = false := by simpa using hk
      have h2 : getField ((k0, v0) :: rest) k = getField rest k := by
        simp [getField, List.find?, h0]
      rw [h2, getField_setField_ne _ _ _ _ hk]

theorem getField_assign_obj (target : Fields) (ref : Nat) (src : Fields) (k : String)
    (hnd : (src.map Prod.fst).Nodup) :
    getField (assign target (Value.obj ref src)) k =
      match getField src k with
      | some v => some v
      | none => getField target k :=
  getField_foldl_setField k src target hnd

/-- C6: on a host that offers `$spliceData`, (1) when the current value of `key` is the
plain mapping `old` and the rendered value is a plain mapping `new` not shallow-equal to
it, the replace batch holds for `key` a fresh object that is `old` overlaid with `new`:
its field `k` is `new[k]` when `k` is a field of `new` and `old[k]` otherwise; (2) when
the rendered value is not a plain mapping, differs from the current one and is not
classified as an append, the replace batch holds the rendered value itself; (3) a replace
batch that holds `key` is handed to `setData`. -/
theorem setData_replace_value (c : Code) (dataRef : Nat) (data : Fields) (w : World)
    (host : Host) (key : String)
    (hint : w.self._internal = some host) (hsplice : host.hasSpliceData = true) :
    (∀ (oldRef newRef : Nat) (old new : Fields),
        getField host.data key = some (Value.obj oldRef old) →
        getField data key = some (Value.obj newRef new) →
        shallowEqual (Value.obj oldRef old) (Value.obj newRef new) = false →
        (old.map Prod.fst).Nodup → (new.map Prod.fst).Nodup →
        ∃ ref merged,
          getField (classify host.data data w.fresh).normalData key = some (Value.obj ref merged)
          ∧ ∀ k, getField merged k =
              match getField new k with
              | some v => some v
              | none => getField old k)
      ∧ (∀ v : Value,
        getField data key = some v →
        isPlainObject v = false →
        diffData (getFieldD host.data key) v = true →
        (isArray v && diffArray (getFieldD host.data key) (items v)) = false →
        getField (classify host.data data w.fresh).normalData key = some v)
      ∧ ((getField (classify host.data data w.fresh).normalData key).isSome = true →
        (_setData c dataRef data w).1 = .ok ()
        ∧ (_setData c dataRef data w).2.events =
          w.events
            ++ [Event.setData (classify host.data data w.fresh).normalData]
            ++ (if isEmptyObj (classify host.data data w.fresh).arrayData then []
                else [Event.spliceData (classify host.data data w.fresh).arrayData])) := by
  refine ⟨?_, ?_, ?_⟩
  · intro oldRef newRef old new hcur hnew hdiff hwo hwn
    have hstep : ∀ b : Batches, classifyKey host.data data b key =
        { b with
          normalData := setField b.normalData key
            (Value.obj b.fresh (assign (assign [] (Value.obj oldRef old)) (Value.obj newRef new))),
          fresh := b.fresh + 1 } := by
      intro b
      simp [classifyKey, getFieldD, hcur, hnew, isArray, diffData, Value.typeOf, isNull, hdiff,
        isPlainObject]
    have hw := foldl_normalData_written host.data data key
      (fun v => ∃ ref, v = Value.obj ref
        (assign (assign [] (Value.obj oldRef old)) (Value.obj newRef new)))
      (fun b => ⟨_, ⟨b.fresh, rfl⟩, by rw [hstep b]; exact getField_setField_same _ _ _⟩)
      (data.map Prod.fst) ⟨[], [], w.fresh⟩ (Or.inl (mem_keys_of_getField _ _ _ hnew))
    obtain ⟨v, ⟨ref, rfl⟩, hv⟩ := hw
    refine ⟨ref, _, hv, ?_⟩
    intro k
    rw [getField_assign_obj _ _ _ _ hwn, getField_assign_obj _ _ _ _ hwo]
    cases getField new k with
    | some v => rfl
    | none =>
      cases getField old k with
      | some v => rfl
      | none => rfl
  · intro v hnew hplain hdiff hnoappend
    have hstep : ∀ b : Batches, classifyKey host.data data b key =
        { b with normalData := setField b.normalData key v } := by
      intro b
      have h1 : getFieldD data key = v := by simp [getFieldD, hnew]
      unfold classifyKey
      simp only [h1, hnoappend, hdiff, hplain, if_true]
      simp
    have hw := foldl_normalData_written host.data data key (fun x => x = v)
      (fun b => ⟨_, rfl, by rw [hstep b]; exact getField_setField_same _ _ _⟩)
      (data.map Prod.fst) ⟨[], [], w.fresh⟩ (Or.inl (mem_keys_of_getField _ _ _ hnew))
    obtain ⟨x, rfl, hx⟩ := hw
    exact hx
  · intro hin
    have hnonempty : isEmptyObj (classify host.data data w.fresh).normalData = false := by
      unfold isEmptyObj
      cases hcase : (classify host.data data w.fresh).normalData with
      | nil => rw [hcase] at hin; simp [getField] at hin
      | cons _ _ => rfl
    have hev := setData_events_of_splice_host c dataRef data w host hint hsplice (Or.inl hnonempty)
    refine ⟨hev.1, ?_⟩
    rw [hev.2, hnonempty]
    simp

/-- Witness of C6: with `o = {a: 1, b: 2}` and `n = 4` on the host and `o = {b: 3}`, `n = 5`
rendered, the replace batch holds `o = {a: 1, b: 3}` and `n = 5` and goes to `setData`. -/
theorem setData_replace_value_witness :
    (∃ ref merged,
        getField (classify mappingHost.data mappingData (onHost sampleWorld mappingHost).fresh).normalData
            "o" = some (Value.obj ref merged)
        ∧ ∀ k, getField merged k =
            match getField [("b", Value.num 3)] k with
            | some v => some v
            | none => getField [("a", Value.num 1), ("b", Value.num 2)] k)
      ∧ getField (classify mappingHost.data mappingData (onHost sampleWorld mappingHost).fresh).normalData
          "n" = some (Value.num 5)
      ∧ (_setData sampleCode 0 mappingData (onHost sampleWorld mappingHost)).2.events =
          (onHost sampleWorld mappingHost).events
            ++ [Event.setData
                (classify mappingHost.data mappingData (onHost sampleWorld mappingHost).fresh).normalData]
            ++ (if isEmptyObj
                  (classify mappingHost.data mappingData (onHost sampleWorld mappingHost).fresh).arrayData
                then []
                else [Event.spliceData
                  (classify mappingHost.data mappingData (onHost sampleWorld mappingHost).fresh).arrayData]) :=
  ⟨(setData_replace_value sampleCode 0 mappingData (onHost sampleWorld mappingHost) mappingHost "o"
      rfl rfl).1 7 8 [("a", Value.num 1), ("b", Value.num 2)] [("b", Value.num 3)]
      rfl rfl rfl (by decide) (by decide),
    (setData_replace_value sampleCode 0 mappingData (onHost sampleWorld mappingHost) mappingHost "n"
      rfl rfl).2.1 (Value.num 5) rfl rfl rfl rfl,
    ((setData_replace_value sampleCode 0 mappingData (onHost sampleWorld mappingHost) mappingHost "o"
      rfl rfl).2.2 rfl).2⟩

/-- C5, the code at the failing input: with `list = [1, 2, 3]` on the host and the shorter
array `[1, 2]` rendered, `diffArray` answers true, the key goes to the splice batch with
the payload `[3, 0]` that inserts nothing, the replace batch stays empty, and the only
host call is `$spliceData`. -/
theorem setData_shorter_array_is_spliced :
    diffArray (Value.arr 3 [Value.num 1, Value.num 2, Value.num 3]) [Value.num 1, Value.num 2] = true
      ∧ classify shrinkHost.data shrinkData 100 =
          ⟨[], [("list", Value.arr 100 [Value.num 3, Value.num 0])], 101⟩
      ∧ (_setData sampleCode 0 shrinkData (onHost sampleWorld shrinkHost)).1 = .ok ()
      ∧ (_setData sampleCode 0 shrinkData (onHost sampleWorld shrinkHost)).2.events =
          [Event.spliceData [("list", Value.arr 100 [Value.num 3, Value.num 0])]] :=
  ⟨rfl, rfl, rfl, rfl⟩

/-- C7, the code at the failing input: with `list = [1, 2]` on the host and an array with
the same two elements rendered, `diffArray` answers true, the key goes to the splice
batch with the payload `[2, 0]`, and `$spliceData` is called. -/
theorem setData_identical_array_is_spliced :
    diffArray (Value.arr 3 [Value.num 1, Value.num 2]) [Value.num 1, Value.num 2] = true
      ∧ classify sameHost.data sameData 100 =
          ⟨[], [("list", Value.arr 100 [Value.num 2, Value.num 0])], 101⟩
      ∧ (_setData sampleCode 0 sameData (onHost sampleWorld sameHost)).1 = .ok ()
      ∧ (_setData sampleCode 0 sameData (onHost sampleWorld sameHost)).2.events =
          [Event.spliceData [("list", Value.arr 100 [Value.num 2, Value.num 0])]] :=
  ⟨rfl, rfl, rfl, rfl⟩

/-! ## Update passes -/

theorem bind_eq {α β : Type} (m : M α) (f : α → M β) : (m >>= f) = M.bind m f := rfl

theorem pure_eq {α : Type} (a : α) : (pure a : M α) = M.ret a := rfl

theorem triggerCycle_eq (c : Code) (cycle : Cycle) (args : List Value) (w : World) :
    triggerCycle c cycle args w =
      (.ok (), { w with events := w.events ++ cycleEvents c w.self cycle args }) := by
  unfold triggerCycle cycleEvents
  by_cases h : c.own cycle = true <;>
    simp [bind_eq, pure_eq, M.bind, M.self, M.emit, M.emitAll, M.ret, h]

theorem updateComponent_unmounted (c : Code) (w : World) (h : w.self.__mounted = false) :
    _updateComponent c w = (.ok (), w) := by
  unfold _updateComponent
  simp [bind_eq, pure_eq, M.bind, M.self, M.ret, h]

theorem unmountComponent_ok (c : Code) (w w1 : World)
    (h : _unmountComponent c w = (.ok (), w1)) : w1.self.__mounted = false := by
  unfold _unmountComponent at h
  simp only [_trigger, bind_eq, M.bind, triggerCycle_eq, M.self, M.emitAll] at h
  cases hi : w.self._internal with
  | none => simp [hi, M.throw] at h
  | some host =>
    simp [hi, bind_eq, M.bind, M.modify, M.emit] at h
    rw [← h]

theorem collectState_frame (c : Code) (w : World) :
    ∃ out queue, _collectState c w =
      (out, { w with fresh := w.fresh + 1, self := { w.self with _pendingStates := queue } }) := by
  unfold _collectState
  simp only
  split
  · exact ⟨_, _, rfl⟩
  · exact ⟨_, _, rfl⟩

theorem deriveState_frame (c : Code) (props state : Value) (w : World) :
    ∃ out fresh, deriveState c props state w = (.ok out, { w with fresh := fresh }) := by
  unfold deriveState
  cases c.getDerivedStateFromProps with
  | none => exact ⟨none, w.fresh, rfl⟩
  | some g =>
    by_cases h : (g props state).truthy = true
    · simp only [h, if_true]
      exact ⟨_, w.fresh + 1, rfl⟩
    · simp only [h, if_false]
      exact ⟨none, w.fresh, rfl⟩

theorem cycleEvents_fired (c : Code) (self : Component) (cycle : Cycle) (args : List Value) :
    ∀ e ∈ cycleEvents c self cycle args,
      (e.fired = some cycle ∨ e.fired = none) ∧ e.isHostWrite = false := by
  intro e he
  unfold cycleEvents at he
  simp only [List.mem_append, List.mem_flatMap, List.mem_map] at he
  rcases he with (he | ⟨h, _, he⟩) | ⟨fn, _, rfl⟩
  · split at he
    · simp only [List.mem_singleton] at he
      subst he
      exact ⟨Or.inl rfl, rfl⟩
    · simp at he
  · cases h with
    | user ref =>
      simp only [runHook, List.mem_singleton] at he
      subst he
      exact ⟨Or.inl rfl, rfl⟩
    | unsubscribe emitter =>
      simp only [runHook, List.mem_cons, List.mem_singleton, List.not_mem_nil, or_false] at he
      rcases he with rfl | rfl
      · exact ⟨Or.inl rfl, rfl⟩
      · exact ⟨Or.inr rfl, rfl⟩
  · exact ⟨Or.inl rfl, rfl⟩

theorem collectState_elim (c : Code) (w w1 : World) (out : Except Err Value)
    (h : _collectState c w = (out, w1)) :
    ∃ queue, w1 =
      { w with fresh := w.fresh + 1, self := { w.self with _pendingStates := queue } } := by
  obtain ⟨o, q, hq⟩ := collectState_frame c w
  rw [hq] at h
  exact ⟨q, (Prod.mk.inj h).2.symm⟩

theorem deriveState_elim (c : Code) (props state : Value) (w w1 : World)
    (out : Except Err (Option Value)) (h : deriveState c props state w = (out, w1)) :
    (∃ v, out = .ok v) ∧ ∃ fresh, w1 = { w with fresh := fresh } := by
  obtain ⟨o, fr, hq⟩ := deriveState_frame c props state w
  rw [hq] at h
  exact ⟨⟨o, (Prod.mk.inj h).1.symm⟩, fr, (Prod.mk.inj h).2.symm⟩


theorem collectLoop_error (c : Code) (props : Value) (ref : Nat) :
    ∀ (queue : List Value) (state : Fields) (e : Err),
      (collectLoop c props ref state queue).1 = .error e → ∃ v, e = Err.thrown v := by
  intro queue
  induction queue with
  | nil => intro state e h; simp [collectLoop] at h
  | cons p rest ih =>
    intro state e h
    unfold collectLoop at h
    split at h
    · simp at h
    · split at h
      · exact ih _ _ h
      · split at h
        · split at h
          · exact ih _ _ h
          · simp only [Except.error.injEq] at h
            exact ⟨_, h.symm⟩
        · exact ih _ _ h

theorem collectState_error (c : Code) (w w1 : World) (e : Err)
    (h : _collectState c w = (.error e, w1)) : ∃ v, e = Err.thrown v := by
  unfold _collectState at h
  simp only at h
  split at h
  · simp at h
  · rename_i e1 he
    have := collectLoop_error c _ _ _ _ _ he
    simp only [Prod.mk.injEq, Except.error.injEq] at h
    rw [← h.1]
    exact this



theorem prepareUpdate_spec (c : Code) (w : World) :
    ∃ out fresh queue,
      prepareUpdate c w =
        (out,
        { w with
          fresh := fresh,
          events := w.events ++
            (if shallowEqual (w.self.prevProps.or w.self.props) (w.self.nextProps.or w.self.props)
              then []
              else cycleEvents c { w.self with props := w.self.prevProps.or w.self.props }
                Cycle.COMPONENT_WILL_RECEIVE_PROPS [w.self.nextProps.or w.self.props]),
          self := { w.self with
            props := w.self.prevProps.or w.self.props,
            _pendingStates := queue } })
      ∧ ((∃ nextState, out = .ok ⟨w.self.nextProps.or w.self.props,
            w.self.prevProps.or w.self.props, nextState, w.self.prevState.or w.self.state⟩)
          ∨ ∃ v, out = .error (Err.thrown v)) := by
  unfold prepareUpdate
  simp only [bind_eq, pure_eq, M.bind, M.self, M.modify, M.ret, _trigger, triggerCycle_eq]
  by_cases hse : shallowEqual (w.self.prevProps.or w.self.props) (w.self.nextProps.or w.self.props) = true
  · simp only [hse, Bool.not_true, Bool.false_eq_true, if_false, if_true, M.bind, M.ret]
    split
    · rename_i collected w3 hc
      obtain ⟨queue, rfl⟩ := collectState_elim _ _ _ _ hc
      simp only [M.self]
      split
      · rename_i sfp w4 hd
        obtain ⟨_, fr, rfl⟩ := deriveState_elim _ _ _ _ _ _ hd
        simp only [List.append_nil]
        exact ⟨_, _, _, rfl, Or.inl ⟨_, rfl⟩⟩
      · rename_i e w4 hd
        obtain ⟨⟨v, hv⟩, _⟩ := deriveState_elim _ _ _ _ _ _ hd
        cases hv
    · rename_i e w3 hc
      obtain ⟨v, rfl⟩ := collectState_error _ _ _ _ hc
      obtain ⟨queue, rfl⟩ := collectState_elim _ _ _ _ hc
      simp only [List.append_nil]
      exact ⟨_, _, _, rfl, Or.inr ⟨v, rfl⟩⟩
  · simp only [hse, Bool.not_false, Bool.false_eq_true, if_false, if_true, M.bind, M.ret,
      triggerCycle_eq]
    split
    · rename_i collected w3 hc
      obtain ⟨queue, rfl⟩ := collectState_elim _ _ _ _ hc
      simp only [M.self]
      split
      · rename_i sfp w4 hd
        obtain ⟨_, fr, rfl⟩ := deriveState_elim _ _ _ _ _ _ hd
        exact ⟨_, _, _, rfl, Or.inl ⟨_, rfl⟩⟩
      · rename_i e w4 hd
        obtain ⟨⟨v, hv⟩, _⟩ := deriveState_elim _ _ _ _ _ _ hd
        cases hv
    · rename_i e w3 hc
      obtain ⟨v, rfl⟩ := collectState_error _ _ _ _ hc
      obtain ⟨queue, rfl⟩ := collectState_elim _ _ _ _ hc
      exact ⟨_, _, _, rfl, Or.inr ⟨v, rfl⟩⟩

theorem updateComponent_skipped (c : Code) (w w1 : World) (p : Pass) (f : Value → Value → Value)
    (hm : w.self.__mounted = true)
    (hs : c.shouldComponentUpdate = some f)
    (hp : prepareUpdate c w = (.ok p, w1))
    (hf : (f p.nextProps p.nextState).truthy = false) :
    _updateComponent c w =
      (.ok (), { w1 with self := { w1.self with __shouldUpdate := f p.nextProps p.nextState } }) := by
  unfold _updateComponent
  simp only [bind_eq, pure_eq, M.bind, M.self, M.modify, M.ret, hm, hp,
    Bool.not_true, Bool.false_eq_true, if_false, decideShouldUpdate, hs, Option.isSome_some,
    Bool.or_true, if_true, hf]

theorem quiet_of_receiveProps (c : Code) (self : Component) (args : List Value) :
    ∀ e ∈ cycleEvents c self Cycle.COMPONENT_WILL_RECEIVE_PROPS args, quiet e = true := by
  intro e he
  obtain ⟨hfired, hw⟩ := cycleEvents_fired c self _ args e he
  unfold quiet
  rcases hfired with h | h <;> rw [h, hw] <;> decide

/-- C8: `_updateComponent` on an instance whose `__mounted` flag is false returns at once
and leaves the whole machine state as it was: no lifecycle callback, no render, no host
call, no continuation, and every field of the instance (props, state, prevProps,
prevState, both pending queues) unchanged. This is the case of an instance that was never
mounted, and of the instance any normally returning `_unmountComponent` leaves. -/
theorem updateComponent_unmounted_noop (c : Code) (w : World) :
    (w.self.__mounted = false → _updateComponent c w = (.ok (), w))
      ∧ (∀ w1, _unmountComponent c w = (.ok (), w1) →
          w1.self.__mounted = false ∧ _updateComponent c w1 = (.ok (), w1)) :=
  ⟨updateComponent_unmounted c w,
    fun w1 h => ⟨unmountComponent_ok c w w1 h,
      updateComponent_unmounted c w1 (unmountComponent_ok c w w1 h)⟩⟩

/-- Witness of C8: an update of the freshly constructed sample instance, and an update of
the sample instance after mount and unmount, change nothing. -/
theorem updateComponent_unmounted_noop_witness :
    _updateComponent sampleCode sampleWorld = (.ok (), sampleWorld)
      ∧ unmountedWorld.self.__mounted = false
      ∧ _updateComponent sampleCode unmountedWorld = (.ok (), unmountedWorld) :=
  ⟨(updateComponent_unmounted_noop sampleCode sampleWorld).1 rfl,
    (updateComponent_unmounted_noop sampleCode (mountedWorld sampleCode)).2 unmountedWorld rfl⟩

/-- C3, the code at the failing input: on the mounted sample instance with the
force-update flag set, a `shouldComponentUpdate` that returns false makes the decision
false and the pass ends without a render; and without a `shouldComponentUpdate` method the
pass throws a `TypeError`, because the method is called though absent. -/
theorem forceUpdate_flag_does_not_force :
    (forcedWorld vetoCode).self.__mounted = true
      ∧ (forcedWorld vetoCode).self.__forceUpdate = Value.bool true
      ∧ (_updateComponent vetoCode (forcedWorld vetoCode)).1 = .ok ()
      ∧ (_updateComponent vetoCode (forcedWorld vetoCode)).2.self.__shouldUpdate = Value.bool false
      ∧ (_updateComponent vetoCode (forcedWorld vetoCode)).2.events = (forcedWorld vetoCode).events
      ∧ (_updateComponent sampleCode (forcedWorld sampleCode)).1 = .error Err.typeError
      ∧ (_updateComponent sampleCode (forcedWorld sampleCode)).2.events
          = (forcedWorld sampleCode).events :=
  ⟨rfl, rfl, rfl, rfl, rfl, rfl, rfl⟩

/-- C2, the code at the failing input: the sample instance is mounted with props `{x: 1}`
and re-rendered with props `{x: 2}`; in the next pass `shouldComponentUpdate` returns
false, neither render nor will-update nor did-update is fired and no host write is made,
and yet the pass leaves `props` at `{x: 1}`, the stale `prevProps`, not at the `{x: 2}`
it held before the call. -/
theorem skipped_update_changes_props :
    beforeSkippedPass.self.__mounted = true
      ∧ beforeSkippedPass.self.props = Value.obj 20 [("x", Value.num 2)]
      ∧ (_updateComponent gatedCode beforeSkippedPass).1 = .ok ()
      ∧ (_updateComponent gatedCode beforeSkippedPass).2.self.__shouldUpdate = Value.bool false
      ∧ (_updateComponent gatedCode beforeSkippedPass).2.events =
          beforeSkippedPass.events
            ++ [Event.own Cycle.COMPONENT_WILL_RECEIVE_PROPS [Value.obj 20 [("x", Value.num 2)]]]
      ∧ (_updateComponent gatedCode beforeSkippedPass).2.self.props = Value.obj 1 [("x", Value.num 1)]
      ∧ (_updateComponent gatedCode beforeSkippedPass).2.self.props ≠ beforeSkippedPass.self.props := by
  refine ⟨rfl, rfl, rfl, rfl, rfl, rfl, ?_⟩
  intro h
  have h1 : Value.obj 1 [("x", Value.num 1)] = Value.obj 20 [("x", Value.num 2)] := h
  injection h1 with h2
  exact absurd h2 (by decide)

/-- Frame of a skipped pass: on a mounted instance, when steps 2 to 4 of the pass return
with the locals `p` and `shouldComponentUpdate(p.nextProps, p.nextState)` returns a falsy
value,
`_updateComponent` returns normally; the calls it makes are neither the render nor
will-update nor did-update callbacks nor host writes; it leaves no continuation; `state`,
`prevProps` and `prevState` are as before the call; and `props` is the baseline of the
pass, `prevProps` when that is set and the former `props` otherwise, so `props` is
unchanged whenever it was equal to `prevProps` before the call. -/
theorem skipped_update_frame (c : Code) (w w1 : World) (p : Pass) (f : Value → Value → Value)
    (hm : w.self.__mounted = true)
    (hs : c.shouldComponentUpdate = some f)
    (hp : prepareUpdate c w = (.ok p, w1))
    (hf : (f p.nextProps p.nextState).truthy = false) :
    (_updateComponent c w).1 = .ok ()
      ∧ (∃ es, (_updateComponent c w).2.events = w.events ++ es ∧ ∀ e ∈ es, quiet e = true)
      ∧ (_updateComponent c w).2.commits = w.commits
      ∧ (_updateComponent c w).2.self.state = w.self.state
      ∧ (_updateComponent c w).2.self.prevProps = w.self.prevProps
      ∧ (_updateComponent c w).2.self.prevState = w.self.prevState
      ∧ (_updateComponent c w).2.self.props = w.self.prevProps.or w.self.props
      ∧ (w.self.prevProps = w.self.props → (_updateComponent c w).2.self.props = w.self.props) := by
  rw [updateComponent_skipped c w w1 p f hm hs hp hf]
  obtain ⟨out, fresh, queue, h, _⟩ := prepareUpdate_spec c w
  rw [hp] at h
  obtain ⟨_, rfl⟩ := Prod.mk.inj h
  refine ⟨rfl, ⟨_, rfl, ?_⟩, rfl, rfl, rfl, rfl, rfl, ?_⟩
  · intro e he
    split at he
    · simp at he
    · exact quiet_of_receiveProps c _ _ e he
  · intro heq
    simp only [heq, Value.or]
    split <;> rfl

/-- The frame of a skipped pass at a sample: right after mount, with `{skip: true}`
pending, the pass of the gated sample component is skipped and leaves props and state as
they were. -/
theorem skipped_update_frame_witness :
    (_updateComponent gatedCode skippedAfterMount).1 = .ok ()
      ∧ (_updateComponent gatedCode skippedAfterMount).2.self.state = skippedAfterMount.self.state
      ∧ (_updateComponent gatedCode skippedAfterMount).2.self.props = skippedAfterMount.self.props :=
  ⟨(skipped_update_frame gatedCode skippedAfterMount
      (prepareUpdate gatedCode skippedAfterMount).2
      ⟨Value.obj 1 [("x", Value.num 1)], Value.obj 1 [("x", Value.num 1)],
        Value.obj 103 [("skip", Value.bool true)], Value.obj 2 []⟩
      (fun _ nextState => Value.bool (!(getFieldD (ownEntries nextState) "skip").truthy))
      rfl rfl rfl rfl).1,
    (skipped_update_frame gatedCode skippedAfterMount
      (prepareUpdate gatedCode skippedAfterMount).2
      ⟨Value.obj 1 [("x", Value.num 1)], Value.obj 1 [("x", Value.num 1)],
        Value.obj 103 [("skip", Value.bool true)], Value.obj 2 []⟩
      (fun _ nextState => Value.bool (!(getFieldD (ownEntries nextState) "skip").truthy))
      rfl rfl rfl rfl).2.2.2.1,
    (skipped_update_frame gatedCode skippedAfterMount
      (prepareUpdate gatedCode skippedAfterMount).2
      ⟨Value.obj 1 [("x", Value.num 1)], Value.obj 1 [("x", Value.num 1)],
        Value.obj 103 [("skip", Value.bool true)], Value.obj 2 []⟩
      (fun _ nextState => Value.bool (!(getFieldD (ownEntries nextState) "skip").truthy))
      rfl rfl rfl rfl).2.2.2.2.2.2.2 rfl⟩

/-- C10, the code at the failing input: the sample instance is mounted with props
`{x: 1}` (after which `prevProps` and `prevState` are the mounted props and state) and
re-rendered with props `{x: 2}`; the next pass, which re-renders too, starts with props
`{x: 2}` and ends with `prevProps` at `{x: 1}`, the mounted props, because step 2 has
overwritten `props` with the old `prevProps` before `prevProps` is set from it. -/
theorem prevProps_stuck_at_mounted_props :
    (mountedWorld sampleCode).self.prevProps = (mountedWorld sampleCode).self.props
      ∧ (mountedWorld sampleCode).self.prevState = (mountedWorld sampleCode).self.state
      ∧ (afterPropsUpdate sampleCode).self.props = Value.obj 20 [("x", Value.num 2)]
      ∧ (_updateComponent sampleCode (afterPropsUpdate sampleCode)).1 = .ok ()
      ∧ (_updateComponent sampleCode (afterPropsUpdate sampleCode)).2.events =
          (afterPropsUpdate sampleCode).events ++
            [ Event.own Cycle.COMPONENT_WILL_RECEIVE_PROPS [Value.obj 20 [("x", Value.num 2)]],
              Event.own Cycle.COMPONENT_WILL_UPDATE
                [Value.obj 20 [("x", Value.num 2)], Value.obj 107 []],
              Event.setComponentProps (Value.str "page"),
              Event.render (Value.obj 20 [("x", Value.num 2)]) (Value.obj 107 []),
              Event.setData
                [ ("p", Value.obj 109 [("x", Value.num 2)]), ("s", Value.obj 110 []),
                  ("$ready", Value.bool true) ],
              Event.own Cycle.COMPONENT_DID_UPDATE
                [Value.obj 1 [("x", Value.num 1)], Value.obj 2 []] ]
      ∧ (_updateComponent sampleCode (afterPropsUpdate sampleCode)).2.self.prevProps =
          Value.obj 1 [("x", Value.num 1)]
      ∧ (_updateComponent sampleCode (afterPropsUpdate sampleCode)).2.self.prevProps ≠
          (afterPropsUpdate sampleCode).self.props := by
  refine ⟨rfl, rfl, rfl, rfl, rfl, rfl, ?_⟩
  intro h
  have h1 : Value.obj 1 [("x", Value.num 1)] = Value.obj 20 [("x", Value.num 2)] := h
  injection h1 with h2
  exact absurd h2 (by decide)

/-- C13: `setState(partial, callback)` returns normally and changes nothing of the machine
state but this: `partial` is appended at the end of `_pendingStates` if and only if it is
neither null nor undefined, `callback` is appended at the end of `_pendingCallbacks` if
and only if it is a function, and `enqueueRender` is called once. The earlier entries of
both queues stay in place and in order, and `state` and `props` are untouched. -/
theorem setState_only_queues (partialState callback : Value) (w : World) :
    setState partialState callback w =
      (.ok (),
        { w with
          events := w.events ++ [Event.enqueueRender],
          self := { w.self with
            _pendingStates :=
              if partialState.notNullish then w.self._pendingStates ++ [partialState]
              else w.self._pendingStates,
            _pendingCallbacks :=
              if isFunction callback then w.self._pendingCallbacks ++ [callback]
              else w.self._pendingCallbacks } })
      ∧ (setState partialState callback w).2.self.state = w.self.state
      ∧ (setState partialState callback w).2.self.props = w.self.props := by
  have h : setState partialState callback w =
      (.ok (),
        { w with
          events := w.events ++ [Event.enqueueRender],
          self := { w.self with
            _pendingStates :=
              if partialState.notNullish then w.self._pendingStates ++ [partialState]
              else w.self._pendingStates,
            _pendingCallbacks :=
              if isFunction callback then w.self._pendingCallbacks ++ [callback]
              else w.self._pendingCallbacks } }) := by
    unfold setState
    cases h1 : partialState.notNullish <;> cases h2 : isFunction callback <;>
      simp [bind_eq, pure_eq, M.bind, M.modify, M.emit, M.ret]
  refine ⟨h, ?_, ?_⟩ <;> rw [h]

theorem cyclesOf_registerLifeCycle (table : List (Cycle × List Hook)) (c1 cycle : Cycle)
    (fn : Hook) :
    cyclesOf (registerLifeCycle table c1 fn) cycle =
      if c1 = cycle then cyclesOf table cycle ++ [fn] else cyclesOf table cycle := by
  induction table with
  | nil =>
    by_cases h : c1 = cycle <;> simp [registerLifeCycle, cyclesOf, List.find?, h]
  | cons e rest ih =>
    obtain ⟨c0, fns⟩ := e
    unfold registerLifeCycle
    by_cases h0 : c0 = c1
    · subst h0
      by_cases h : c0 = cycle <;> simp [cyclesOf, List.find?, h]
    · simp only [h0, if_false]
      by_cases h1 : c0 = cycle
      · have h2 : ¬ c1 = cycle := fun h => h0 (h1.trans h.symm)
        simp [cyclesOf, List.find?, h1, h2]
      · have := ih
        simp only [cyclesOf, List.find?, h1, decide_False] at this ⊢
        exact this

theorem cyclesOf_registerAll (regs : List (Cycle × Hook)) :
    ∀ (table : List (Cycle × List Hook)) (cycle : Cycle),
      cyclesOf (registerAll table regs) cycle = cyclesOf table cycle ++ registeredFor regs cycle := by
  induction regs with
  | nil => intro table cycle; simp [registerAll, registeredFor]
  | cons r rest ih =>
    intro table cycle
    have h := ih (registerLifeCycle table r.1 r.2) cycle
    simp only [registerAll, List.foldl_cons] at h ⊢
    rw [h, cyclesOf_registerLifeCycle]
    by_cases hc : r.1 = cycle <;> simp [registeredFor, List.filter, hc]

theorem popLoop_functions :
    ∀ queue : List Value, (∀ cb ∈ queue, isFunction cb = true) →
      popLoop queue = (callbackCalls queue.reverse, .ok (), []) := by
  intro queue
  induction queue with
  | nil => intro _; rfl
  | cons cb rest ih =>
    intro h
    have hcb := h cb (List.mem_cons_self _ _)
    have hrest := ih (fun x hx => h x (List.mem_cons_of_mem _ hx))
    cases cb <;> simp [isFunction] at hcb
    simp [popLoop, Value.truthy, hrest, callbackCalls]

theorem triggerCallbacks_eq (w : World)
    (hq : ∀ cb ∈ w.self._pendingCallbacks, isFunction cb = true) :
    triggerCallbacks w =
      (.ok (),
        { w with
          events := w.events ++ callbackCalls w.self._pendingCallbacks,
          self := { w.self with _pendingCallbacks := [] } }) := by
  have h := popLoop_functions w.self._pendingCallbacks.reverse
    (fun cb hcb => hq cb (List.mem_reverse.mp hcb))
  unfold triggerCallbacks
  simp only [h, List.reverse_reverse, List.reverse_nil]

theorem quickKey_events_eq (hostRef dataRef : Nat) (data : Fields) (q : QuickState)
    (key : String) :
    (quickKey hostRef dataRef data q key).events =
      q.events ++ (if hasField q.own key then [] else [Event.hostSet key (getFieldD data key)]) := by
  unfold quickKey
  by_cases h1 : (key == "$ready") = true <;> by_cases h2 : hasField q.own key = true <;>
    by_cases h3 : diffData (Value.obj hostRef q.own) (Value.obj dataRef data) = true <;>
    simp [h1, h2, h3]

theorem quickKey_events (hostRef dataRef : Nat) (data : Fields) (q : QuickState) (key : String)
    (h : ∀ e ∈ q.events, e.isCallback = false ∧ e.fired = none) :
    ∀ e ∈ (quickKey hostRef dataRef data q key).events, e.isCallback = false ∧ e.fired = none := by
  intro e he
  rw [quickKey_events_eq, List.mem_append] at he
  rcases he with he | he
  · exact h e he
  · split at he
    · simp at he
    · simp only [List.mem_singleton] at he
      subst he
      exact ⟨rfl, rfl⟩

theorem quickFold_events (hostRef dataRef : Nat) (data : Fields) :
    ∀ (keys : List String) (q : QuickState),
      (∀ e ∈ q.events, e.isCallback = false ∧ e.fired = none) →
      ∀ e ∈ (keys.foldl (quickKey hostRef dataRef data) q).events,
        e.isCallback = false ∧ e.fired = none := by
  intro keys
  induction keys with
  | nil => intro q h; exact h
  | cons k rest ih =>
    intro q h
    exact ih _ (quickKey_events hostRef dataRef data q k h)

theorem invokeTask_events (dataRef : Nat) (host : Host) (ready : Value) (t : Task) :
    ∀ e ∈ (invokeTask dataRef host ready t).2.1, e.isCallback = false ∧ e.fired = none := by
  intro e he
  cases t with
  | setData nd =>
    simp only [invokeTask, List.mem_singleton] at he
    subst he; exact ⟨rfl, rfl⟩
  | spliceData ad =>
    simp only [invokeTask, List.mem_singleton] at he
    subst he; exact ⟨rfl, rfl⟩
  | setDataReady nd =>
    simp only [invokeTask, List.mem_singleton] at he
    subst he; exact ⟨rfl, rfl⟩
  | quickApp data =>
    simp only [invokeTask, List.mem_append, List.mem_singleton] at he
    rcases he with he | rfl
    · exact quickFold_events host.ref dataRef data _ _ (by intro e he; simp at he) e he
    · exact ⟨rfl, rfl⟩

theorem invokeTasks_events (dataRef : Nat) :
    ∀ (tasks : List Task) (host : Host) (ready : Value),
      ∀ e ∈ (invokeTasks dataRef host ready tasks).2.1, e.isCallback = false ∧ e.fired = none := by
  intro tasks
  induction tasks with
  | nil => intro host ready e he; simp [invokeTasks] at he
  | cons t rest ih =>
    intro host ready e he
    simp only [invokeTasks, List.mem_append] at he
    rcases he with he | he
    · exact invokeTask_events dataRef host ready t e he
    · exact ih _ _ e he

theorem settle_eq (c : Code) (w : World) (commit : Commit) (rest : List Commit)
    (hc : w.commits = commit :: rest)
    (hq : ∀ cb ∈ w.self._pendingCallbacks, isFunction cb = true) :
    settle c w =
      (.ok (),
        { w with
          commits := rest,
          events := w.events
            ++ (if commit.ready.truthy then cycleEvents c w.self Cycle.COMPONENT_DID_MOUNT []
                else [])
            ++ callbackCalls w.self._pendingCallbacks,
          self := { w.self with _pendingCallbacks := [] } }) := by
  unfold settle
  simp only [hc]
  by_cases hr : commit.ready.truthy = true
  · simp only [hr, if_true, bind_eq, M.bind, _trigger, triggerCycle_eq]
    rw [triggerCallbacks_eq]
    exact hq
  · simp only [hr, if_false, bind_eq, pure_eq, M.bind, M.ret, Bool.false_eq_true]
    rw [triggerCallbacks_eq]
    all_goals first | exact hq | simp only [List.append_nil]

/-- C14: for a lifecycle event other than the render, on an instance whose table `_cycles`
was built from the empty table by the registrations `regs`, `_trigger(cycle, ...args)`
returns normally, changes nothing but the record of calls, and calls, in this order and
each with `args`: the own method named as the event, if the instance has one; every hook
that `regs` registers for this event, once per registration and in registration order;
every page-level hook of the instance's identity for this event, in order. No callback of
another event is called. -/
theorem trigger_calls_in_order (c : Code) (cycle : Cycle) (args : List Value) (w : World)
    (regs : List (Cycle × Hook))
    (hcycle : cycle ≠ Cycle.RENDER)
    (hregs : w.self._cycles = registerAll [] regs) :
    _trigger c cycle args w =
        (.ok (),
          { w with
            events := w.events
              ++ (if c.own cycle then [Event.own cycle args] else [])
              ++ (registeredFor regs cycle).flatMap (runHook cycle args)
              ++ (c.pageCycles w.self.instanceId cycle).map
                  (fun fn => Event.pageHook cycle fn args) })
      ∧ ∀ e ∈ (if c.own cycle then [Event.own cycle args] else [])
              ++ (registeredFor regs cycle).flatMap (runHook cycle args)
              ++ (c.pageCycles w.self.instanceId cycle).map
                  (fun fn => Event.pageHook cycle fn args),
          e.fired = some cycle ∨ e.fired = none := by
  have hlocal : cyclesOf w.self._cycles cycle = registeredFor regs cycle := by
    rw [hregs, cyclesOf_registerAll]
    simp [cyclesOf]
  have htrig : _trigger c cycle args w = triggerCycle c cycle args w := by
    cases cycle <;> first | exact absurd rfl hcycle | rfl
  constructor
  · rw [htrig, triggerCycle_eq, cycleEvents, hlocal]
    simp only [List.append_assoc]
  · intro e he
    have := cycleEvents_fired c w.self cycle args e
    rw [cycleEvents, hlocal] at this
    exact (this he).1

/-- Witness of C14: did-update on the sample calls the own method, the hooks 11 and 13 and
the page-level hooks 21 and 22, in this order, and not hook 12. -/
theorem trigger_calls_in_order_witness :
    _trigger pagedCode Cycle.COMPONENT_DID_UPDATE [Value.num 1, Value.num 2] hookedWorld =
      (.ok (),
        { hookedWorld with
          events :=
            [ Event.own Cycle.COMPONENT_DID_UPDATE [Value.num 1, Value.num 2],
              Event.hook Cycle.COMPONENT_DID_UPDATE (Hook.user 11) [Value.num 1, Value.num 2],
              Event.hook Cycle.COMPONENT_DID_UPDATE (Hook.user 13) [Value.num 1, Value.num 2],
              Event.pageHook Cycle.COMPONENT_DID_UPDATE 21 [Value.num 1, Value.num 2],
              Event.pageHook Cycle.COMPONENT_DID_UPDATE 22 [Value.num 1, Value.num 2] ] }) :=
  (trigger_calls_in_order pagedCode Cycle.COMPONENT_DID_UPDATE [Value.num 1, Value.num 2]
    hookedWorld
    [ (Cycle.COMPONENT_DID_UPDATE, Hook.user 11), (Cycle.ON_SHOW, Hook.user 12),
      (Cycle.COMPONENT_DID_UPDATE, Hook.user 13) ]
    (by decide) rfl).1

theorem setData_no_tasks (c : Code) (dataRef : Nat) (data : Fields) (w : World) (host : Host)
    (hint : w.self._internal = some host)
    (hq : ∀ cb ∈ w.self._pendingCallbacks, isFunction cb = true)
    (h0 : (plan c host data w.fresh).tasks.length = 0) :
    _setData c dataRef data w =
      (.ok (),
        { w with
          fresh := (plan c host data w.fresh).fresh,
          events := w.events ++ callbackCalls w.self._pendingCallbacks,
          self := { w.self with _pendingCallbacks := [] } }) := by
  unfold _setData
  simp only [hint, h0, gt_iff_lt, lt_self_iff_false, if_false]
  rw [triggerCallbacks_eq]
  all_goals first | exact hq | simp only [hint]

theorem setData_tasks (c : Code) (dataRef : Nat) (data : Fields) (w : World) (host : Host)
    (hint : w.self._internal = some host)
    (h0 : 0 < (plan c host data w.fresh).tasks.length) :
    _setData c dataRef data w =
      (.ok (),
        { w with
          fresh := (plan c host data w.fresh).fresh,
          events := w.events ++
            (invokeTasks dataRef host (plan c host data w.fresh).ready
              (plan c host data w.fresh).tasks).2.1,
          commits := w.commits ++
            [⟨(invokeTasks dataRef host (plan c host data w.fresh).ready
              (plan c host data w.fresh).tasks).2.2⟩],
          self := { w.self with
            _internal := some (invokeTasks dataRef host (plan c host data w.fresh).ready
              (plan c host data w.fresh).tasks).1 } }) := by
  unfold _setData
  simp only [hint, h0, gt_iff_lt, if_true]

/-- C12: with a pending callback queue `[c1, ..., cn]` of functions, (1) when `_setData`
has no task, it returns normally, the only calls it makes are the callbacks, each once,
in the order `cn, ..., c1`, with no host call and no continuation left, and the queue
ends empty; (2) when it has a task, it returns normally after the host calls, calls no
callback, keeps the queue and leaves one continuation; (3) a continuation, run when the
host calls have completed, calls the did-mount callbacks if its `$ready` is truthy, then
every callback of the queue once in the order `cn, ..., c1`, and leaves the queue empty. -/
theorem setData_drains_callbacks (c : Code) (dataRef : Nat) (data : Fields) (w : World)
    (host : Host)
    (hint : w.self._internal = some host)
    (hq : ∀ cb ∈ w.self._pendingCallbacks, isFunction cb = true) :
    ((plan c host data w.fresh).tasks.length = 0 →
        (_setData c dataRef data w).1 = .ok ()
        ∧ (_setData c dataRef data w).2.events =
            w.events ++ callbackCalls w.self._pendingCallbacks
        ∧ (_setData c dataRef data w).2.self._pendingCallbacks = []
        ∧ (_setData c dataRef data w).2.commits = w.commits)
      ∧ (0 < (plan c host data w.fresh).tasks.length →
        (_setData c dataRef data w).1 = .ok ()
        ∧ (∃ calls, (_setData c dataRef data w).2.events = w.events ++ calls
            ∧ ∀ e ∈ calls, e.isCallback = false ∧ e.fired = none)
        ∧ (_setData c dataRef data w).2.self._pendingCallbacks = w.self._pendingCallbacks
        ∧ ∃ commit, (_setData c dataRef data w).2.commits = w.commits ++ [commit])
      ∧ (∀ (w1 : World) (commit : Commit) (rest : List Commit),
        w1.commits = commit :: rest →
        (∀ cb ∈ w1.self._pendingCallbacks, isFunction cb = true) →
        (settle c w1).1 = .ok ()
        ∧ (settle c w1).2.events =
            w1.events
              ++ (if commit.ready.truthy then cycleEvents c w1.self Cycle.COMPONENT_DID_MOUNT []
                  else [])
              ++ callbackCalls w1.self._pendingCallbacks
        ∧ (settle c w1).2.self._pendingCallbacks = []
        ∧ (settle c w1).2.commits = rest) := by
  refine ⟨?_, ?_, ?_⟩
  · intro h0
    rw [setData_no_tasks c dataRef data w host hint hq h0]
    exact ⟨rfl, rfl, rfl, rfl⟩
  · intro h0
    rw [setData_tasks c dataRef data w host hint h0]
    exact ⟨rfl, ⟨_, rfl, invokeTasks_events dataRef _ _ _⟩, rfl, _, rfl⟩
  · intro w1 commit rest hc hq1
    rw [settle_eq c w1 commit rest hc hq1]
    exact ⟨rfl, rfl, rfl, rfl⟩

/-- Witness of C12: with the callbacks 31 and 32 pending, `_setData` of unchanged data
calls 32 then 31 at once; `_setData` of changed data keeps them, and the continuation
calls 32 then 31 after the host call. -/
theorem setData_drains_callbacks_witness :
    (_setData sampleCode 0 [] (withCallbacks sampleWorld [Value.func 31, Value.func 32])).2.events =
        [Event.callback 32, Event.callback 31]
      ∧ (_setData sampleCode 0 [("n", Value.num 1)]
          (withCallbacks sampleWorld [Value.func 31, Value.func 32])).2.self._pendingCallbacks =
        [Value.func 31, Value.func 32]
      ∧ (settle sampleCode (_setData sampleCode 0 [("n", Value.num 1)]
          (withCallbacks sampleWorld [Value.func 31, Value.func 32])).2).2.events =
        [Event.setData [("n", Value.num 1)], Event.callback 32, Event.callback 31] :=
  ⟨((setData_drains_callbacks sampleCode 0 []
      (withCallbacks sampleWorld [Value.func 31, Value.func 32]) (spliceHost []) rfl
      (by decide)).1 rfl).2.1,
    ((setData_drains_callbacks sampleCode 0 [("n", Value.num 1)]
      (withCallbacks sampleWorld [Value.func 31, Value.func 32]) (spliceHost []) rfl
      (by decide)).2.1 (by decide)).2.2.1,
    ((setData_drains_callbacks sampleCode 0 [("n", Value.num 1)]
      (withCallbacks sampleWorld [Value.func 31, Value.func 32]) (spliceHost []) rfl
      (by decide)).2.2
      (_setData sampleCode 0 [("n", Value.num 1)]
        (withCallbacks sampleWorld [Value.func 31, Value.func 32])).2
      ⟨Value.undefined⟩ [] rfl (by decide)).2.1⟩

theorem cycleEvents_props (c : Code) (self : Component) (props : Value) (cycle : Cycle)
    (args : List Value) :
    cycleEvents c { self with props := props } cycle args = cycleEvents c self cycle args := rfl

theorem prepareUpdate_unfold (c : Code) (w : World) :
    prepareUpdate c w =
      ((_collectState c).bind fun collected =>
        (deriveState c (w.self.nextProps.or w.self.props) collected).bind fun stateFromProps =>
          M.ret ⟨w.self.nextProps.or w.self.props, w.self.prevProps.or w.self.props,
            stateFromProps.getD collected, w.self.prevState.or w.self.state⟩) (afterStep2 c w) := by
  unfold prepareUpdate afterStep2
  simp only [bind_eq, pure_eq, M.bind, M.self, M.modify, M.ret, _trigger, triggerCycle_eq]
  by_cases hse : shallowEqual (w.self.prevProps.or w.self.props) (w.self.nextProps.or w.self.props) = true
  · simp only [hse, Bool.not_true, Bool.false_eq_true, if_false, if_true, M.bind, M.ret,
      List.append_nil]
    split
    · rename_i collected w3 hc
      obtain ⟨queue, rfl⟩ := collectState_elim _ _ _ _ hc
      rfl
    · rfl
  · simp only [hse, Bool.not_false, Bool.false_eq_true, if_false, if_true, M.bind, M.ret,
      triggerCycle_eq, cycleEvents_props]
    split
    · rename_i collected w3 hc
      obtain ⟨queue, rfl⟩ := collectState_elim _ _ _ _ hc
      rfl
    · rfl

theorem triggerRender_none (c : Code) (args : List Value) (w : World) (hr : c.render = none) :
    triggerRender c args w = (.error Err.noRender, w) := by
  unfold triggerRender
  simp only [hr]
  rfl

theorem mountComponent_noRender (c : Code) (w : World) (hr : c.render = none) :
    ∃ state fresh,
      _mountComponent c w =
        (.error Err.noRender,
          { w with
            fresh := fresh,
            events := w.events ++ cycleEvents c w.self Cycle.COMPONENT_WILL_MOUNT [],
            self := { w.self with state := state } }) := by
  unfold _mountComponent
  simp only [bind_eq, pure_eq, M.bind, M.self, M.ret]
  split
  · rename_i sfp w1 hd
    obtain ⟨_, fr, rfl⟩ := deriveState_elim _ _ _ _ _ _ hd
    cases sfp with
    | none =>
      simp only [M.ret, M.bind, _trigger, triggerCycle_eq, triggerRender_none _ _ _ hr]
      exact ⟨w.self.state, fr, rfl⟩
    | some st =>
      simp only [M.modify, M.bind, _trigger, triggerCycle_eq, triggerRender_none _ _ _ hr]
      exact ⟨st, fr, rfl⟩
  · rename_i e w1 hd
    obtain ⟨⟨v, hv⟩, _⟩ := deriveState_elim _ _ _ _ _ _ hd
    cases hv

/-- C15: on an instance without a render method, firing the render throws the usage error
and leaves the whole machine state as it was (`Host.current`, `_hookID`, `props` and
`state` included); `_mountComponent` throws the same error after the will-mount callbacks
have been called, and leaves `__mounted`, `prevProps`, `prevState`, `props`, `_hookID`
and `Host.current` as they were; so on an instance that was not mounted, a later
`_updateComponent` changes nothing. -/
theorem render_without_method_throws (c : Code) (w : World) (hr : c.render = none) :
    (∀ args, _trigger c Cycle.RENDER args w = (.error Err.noRender, w))
      ∧ (_mountComponent c w).1 = .error Err.noRender
      ∧ (_mountComponent c w).2.events =
          w.events ++ cycleEvents c w.self Cycle.COMPONENT_WILL_MOUNT []
      ∧ (_mountComponent c w).2.self.__mounted = w.self.__mounted
      ∧ (_mountComponent c w).2.self.prevProps = w.self.prevProps
      ∧ (_mountComponent c w).2.self.prevState = w.self.prevState
      ∧ (_mountComponent c w).2.self.props = w.self.props
      ∧ (_mountComponent c w).2.self._hookID = w.self._hookID
      ∧ (_mountComponent c w).2.hostCurrent = w.hostCurrent
      ∧ (w.self.__mounted = false →
          _updateComponent c (_mountComponent c w).2 = (.ok (), (_mountComponent c w).2)) := by
  obtain ⟨state, fresh, h⟩ := mountComponent_noRender c w hr
  refine ⟨fun args => triggerRender_none c args w hr, ?_⟩
  rw [h]
  refine ⟨rfl, rfl, rfl, rfl, rfl, rfl, rfl, rfl, ?_⟩
  intro hm
  exact updateComponent_unmounted c _ hm

/-- Witness of C15: mounting the sample instance without a render method throws after the
own will-mount method was called, leaves it unmounted with `prevProps` and `prevState`
undefined, and a later update changes nothing. -/
theorem render_without_method_throws_witness :
    _trigger renderlessCode Cycle.RENDER [] sampleWorld = (.error Err.noRender, sampleWorld)
      ∧ (_mountComponent renderlessCode sampleWorld).1 = .error Err.noRender
      ∧ (_mountComponent renderlessCode sampleWorld).2.events =
          [Event.own Cycle.COMPONENT_WILL_MOUNT []]
      ∧ (_mountComponent renderlessCode sampleWorld).2.self.__mounted = false
      ∧ (_mountComponent renderlessCode sampleWorld).2.self.prevProps = Value.undefined
      ∧ (_mountComponent renderlessCode sampleWorld).2.self.prevState = Value.undefined
      ∧ _updateComponent renderlessCode (_mountComponent renderlessCode sampleWorld).2 =
          (.ok (), (_mountComponent renderlessCode sampleWorld).2) :=
  ⟨(render_without_method_throws renderlessCode sampleWorld rfl).1 [],
    (render_without_method_throws renderlessCode sampleWorld rfl).2.1,
    (render_without_method_throws renderlessCode sampleWorld rfl).2.2.1,
    (render_without_method_throws renderlessCode sampleWorld rfl).2.2.2.1,
    (render_without_method_throws renderlessCode sampleWorld rfl).2.2.2.2.1,
    (render_without_method_throws renderlessCode sampleWorld rfl).2.2.2.2.2.1,
    (render_without_method_throws renderlessCode sampleWorld rfl).2.2.2.2.2.2.2.2.2 rfl⟩

theorem collectLoop_throws (c : Code) (props : Value) (ref : Nat) (f : Value) (post : List Value)
    (x : Value) (hf : isFunction f = true) :
    ∀ (pre : List Value) (acc0 acc : Fields),
      (∀ e ∈ pre, isPlainObject e = true ∨ isFunction e = true) →
      pre.foldlM (mergeEntry c props ref) acc0 = .ok acc →
      c.call f (Value.obj ref acc) props = .error x →
      collectLoop c props ref acc0 (pre ++ f :: post) = (.error (Err.thrown x), post) := by
  intro pre
  induction pre with
  | nil =>
    intro acc0 acc _ hfold hthrow
    simp only [List.foldlM, pure, Except.pure, Except.ok.injEq] at hfold
    subst hfold
    have ht := truthy_of_plain_or_function f (Or.inr hf)
    simp only [List.nil_append]
    unfold collectLoop
    simp only [ht.1, ht.2, hf, hthrow, Bool.not_true, Bool.false_eq_true, if_false, if_true]
  | cons e rest ih =>
    intro acc0 acc hq hfold hthrow
    have he := truthy_of_plain_or_function e (hq e (List.mem_cons_self _ _))
    have hrest : ∀ y ∈ rest, isPlainObject y = true ∨ isFunction y = true :=
      fun y hy => hq y (List.mem_cons_of_mem _ hy)
    rw [List.foldlM_cons] at hfold
    simp only [List.cons_append]
    unfold collectLoop
    simp only [he.1, he.2, Bool.not_true, Bool.false_eq_true, if_false]
    by_cases hfe : isFunction e = true
    · simp only [hfe, if_true]
      simp only [mergeEntry, hfe, if_true] at hfold
      cases hc : c.call e (Value.obj ref acc0) props with
      | ok r =>
        rw [hc] at hfold
        exact ih _ _ hrest hfold hthrow
      | error y =>
        rw [hc] at hfold
        simp [bind, Except.bind] at hfold
    · simp only [hfe, if_false]
      simp only [mergeEntry, hfe, if_false] at hfold
      exact ih _ _ hrest hfold hthrow

/-- C18: on a mounted instance whose pending queue is `pre ++ f :: post`, where `pre`
holds plain objects and updaters whose fold returns `acc` and the updater `f`, called with
the accumulated state `acc`, throws `x`: `_updateComponent` throws `x`; `_pendingStates`
is left as `post`, the entries queued after `f`, in their order; the calls made are
neither the render nor will-update nor did-update callbacks nor host writes; no
continuation is left; and `state` is unchanged. -/
theorem throwing_updater_aborts_pass (c : Code) (w : World) (pre post : List Value)
    (f x : Value) (acc : Fields)
    (hm : w.self.__mounted = true)
    (hqueue : w.self._pendingStates = pre ++ f :: post)
    (hpre : ∀ e ∈ pre, isPlainObject e = true ∨ isFunction e = true)
    (hfold : foldEntries c (w.self.prevProps.or w.self.props) w.fresh w.self.state pre = .ok acc)
    (hf : isFunction f = true)
    (hthrow : c.call f (Value.obj w.fresh acc) (w.self.prevProps.or w.self.props) = .error x) :
    (_updateComponent c w).1 = .error (Err.thrown x)
      ∧ (_updateComponent c w).2.self._pendingStates = post
      ∧ (∃ es, (_updateComponent c w).2.events = w.events ++ es ∧ ∀ e ∈ es, quiet e = true)
      ∧ (_updateComponent c w).2.commits = w.commits
      ∧ (_updateComponent c w).2.self.state = w.self.state := by
  have hloop := collectLoop_throws c (w.self.prevProps.or w.self.props) w.fresh f post x hf
    pre _ acc hpre hfold hthrow
  have hcollect : _collectState c (afterStep2 c w) =
      (.error (Err.thrown x),
        { afterStep2 c w with
          fresh := w.fresh + 1,
          self := { (afterStep2 c w).self with _pendingStates := post } }) := by
    unfold _collectState
    have h2 : (afterStep2 c w).self._pendingStates = pre ++ f :: post := hqueue
    have h3 : (afterStep2 c w).self.props = w.self.prevProps.or w.self.props := rfl
    have h4 : (afterStep2 c w).fresh = w.fresh := rfl
    have h5 : (afterStep2 c w).self.state = w.self.state := rfl
    simp only [h2, h3, h4, h5, hloop]
  have hmain : _updateComponent c w =
      (.error (Err.thrown x),
        { afterStep2 c w with
          fresh := w.fresh + 1,
          self := { (afterStep2 c w).self with _pendingStates := post } }) := by
    unfold _updateComponent
    simp only [bind_eq, pure_eq, M.bind, M.self, hm, Bool.not_true, Bool.false_eq_true, if_false,
      prepareUpdate_unfold, hcollect]
  rw [hmain]
  refine ⟨rfl, rfl, ⟨_, rfl, ?_⟩, rfl, rfl⟩
  intro e he
  split at he
  · simp at he
  · exact quiet_of_receiveProps c _ _ e he

/-- Witness of C18: with the queue `[{a: 1}, f, {a: 2}]` and `f` throwing `"boom"`, the
pass throws `"boom"`, leaves `[{a: 2}]` queued and the state as it was. -/
theorem throwing_updater_aborts_pass_witness :
    (_updateComponent sampleCode throwingWorld).1 = .error (Err.thrown (Value.str "boom"))
      ∧ (_updateComponent sampleCode throwingWorld).2.self._pendingStates =
          [Value.obj 6 [("a", Value.num 2)]]
      ∧ (_updateComponent sampleCode throwingWorld).2.self.state = throwingWorld.self.state :=
  ⟨(throwing_updater_aborts_pass sampleCode throwingWorld [Value.obj 5 [("a", Value.num 1)]]
      [Value.obj 6 [("a", Value.num 2)]] (Value.func 2) (Value.str "boom") [("a", Value.num 1)]
      rfl rfl (by decide) rfl rfl rfl).1,
    (throwing_updater_aborts_pass sampleCode throwingWorld [Value.obj 5 [("a", Value.num 1)]]
      [Value.obj 6 [("a", Value.num 2)]] (Value.func 2) (Value.str "boom") [("a", Value.num 1)]
      rfl rfl (by decide) rfl rfl rfl).2.1,
    (throwing_updater_aborts_pass sampleCode throwingWorld [Value.obj 5 [("a", Value.num 1)]]
      [Value.obj 6 [("a", Value.num 2)]] (Value.func 2) (Value.str "boom") [("a", Value.num 1)]
      rfl rfl (by decide) rfl rfl rfl).2.2.2.2⟩

theorem shallowEqual_of_is (a b : Value) (h : is a b = true) : shallowEqual a b = true := by
  unfold shallowEqual
  simp [h]

/-- C16, counterexample: the mounted sample instance has read the context value `{a: 1}`
(reference 30); the emitter notifies with another object `{a: 1}` (reference 31), which is
shallow-equal to the last rendered value, and an update pass runs: will-update, render, a
host write and did-update are called. -/
theorem shallow_equal_context_triggers_update :
    themedWorld.self.__mounted = true
      ∧ themedWorld.self.__dependencies = [("theme", ⟨7, Value.obj 30 [("a", Value.num 1)]⟩)]
      ∧ shallowEqual (Value.obj 31 [("a", Value.num 1)]) (Value.obj 30 [("a", Value.num 1)]) = true
      ∧ (contextUpdater themedCode "theme" (Value.obj 31 [("a", Value.num 1)]) themedWorld).2.events =
          themedWorld.events ++
            [ Event.own Cycle.COMPONENT_WILL_UPDATE
                [Value.obj 1 [("x", Value.num 1)], Value.obj 103 []],
              Event.setComponentProps (Value.str "page"),
              Event.render (Value.obj 1 [("x", Value.num 1)]) (Value.obj 103 []),
              Event.setData
                [ ("p", Value.obj 105 [("x", Value.num 1)]), ("s", Value.obj 106 []),
                  ("$ready", Value.bool true) ],
              Event.own Cycle.COMPONENT_DID_UPDATE
                [Value.obj 1 [("x", Value.num 1)], Value.obj 2 []] ]
      ∧ (contextUpdater themedCode "theme" (Value.obj 31 [("a", Value.num 1)])
          themedWorld).2.events.length ≠ themedWorld.events.length :=
  ⟨rfl, rfl, rfl, rfl, by decide⟩

/-- C16, amended: on an instance that has read a context, so that `__dependencies` holds
an entry for it, a notification of the emitter with a value identical to the last rendered
value (`===`, or both `NaN`; compared as a whole, not key by key) changes nothing and
triggers no update pass; a notification with a value that is not identical sets
`__shouldUpdate` and runs `_updateComponent` exactly once. A value that is not
shallow-equal to the last rendered value is not identical to it, so it triggers the pass. -/
theorem context_notification_updates_unless_identical (c : Code) (w : World)
    (contextProp : String) (newContext : Value) (entry : String × ContextItem)
    (hdep : w.self.__dependencies.find? (fun e => e.1 == contextProp) = some entry) :
    (is newContext entry.2.renderedContext = true →
        contextUpdater c contextProp newContext w = (.ok (), w))
      ∧ (is newContext entry.2.renderedContext = false →
        contextUpdater c contextProp newContext w =
          _updateComponent c { w with self := { w.self with __shouldUpdate := Value.bool true } })
      ∧ (shallowEqual newContext entry.2.renderedContext = false →
        contextUpdater c contextProp newContext w =
          _updateComponent c { w with self := { w.self with __shouldUpdate := Value.bool true } }) := by
  have h1 : is newContext entry.2.renderedContext = true →
      contextUpdater c contextProp newContext w = (.ok (), w) := by
    intro h
    unfold contextUpdater
    simp only [hdep, h, Bool.not_true, Bool.false_eq_true, if_false]
  have h2 : is newContext entry.2.renderedContext = false →
      contextUpdater c contextProp newContext w =
        _updateComponent c { w with self := { w.self with __shouldUpdate := Value.bool true } } := by
    intro h
    unfold contextUpdater
    simp only [hdep, h, Bool.not_false, if_true, bind_eq, M.bind, M.modify]
  refine ⟨h1, h2, ?_⟩
  intro hse
  apply h2
  cases hi : is newContext entry.2.renderedContext with
  | false => rfl
  | true => rw [shallowEqual_of_is _ _ hi] at hse; cases hse

/-- Witness of C16 amended: on the themed sample, a notification with the very object last
rendered changes nothing; a notification with `{a: 2}` runs one update pass. -/
theorem context_notification_updates_unless_identical_witness :
    contextUpdater themedCode "theme" (Value.obj 30 [("a", Value.num 1)]) themedWorld =
        (.ok (), themedWorld)
      ∧ contextUpdater themedCode "theme" (Value.obj 32 [("a", Value.num 2)]) themedWorld =
        _updateComponent themedCode
          { themedWorld with self := { themedWorld.self with __shouldUpdate := Value.bool true } }
      ∧ contextUpdater themedCode "theme" (Value.obj 32 [("a", Value.num 2)]) themedWorld =
        _updateComponent themedCode
          { themedWorld with self := { themedWorld.self with __shouldUpdate := Value.bool true } } :=
  ⟨(context_notification_updates_unless_identical themedCode themedWorld "theme"
      (Value.obj 30 [("a", Value.num 1)]) ("theme", ⟨7, Value.obj 30 [("a", Value.num 1)]⟩)
      rfl).1 rfl,
    (context_notification_updates_unless_identical themedCode themedWorld "theme"
      (Value.obj 32 [("a", Value.num 2)]) ("theme", ⟨7, Value.obj 30 [("a", Value.num 1)]⟩)
      rfl).2.1 rfl,
    (context_notification_updates_unless_identical themedCode themedWorld "theme"
      (Value.obj 32 [("a", Value.num 2)]) ("theme", ⟨7, Value.obj 30 [("a", Value.num 1)]⟩)
      rfl).2.2 rfl⟩

/-! ## The ready marker -/

theorem diffData_true (cur : Value) :
    diffData cur (Value.bool true) = !cur.strictEq (Value.bool true) := by
  cases cur <;> simp [diffData, Value.typeOf, Value.strictEq, isNull]

theorem getField_ready_of_updateData (data : Fields) (tagId : String) (tag : Value)
    (htag : tagId ≠ "$ready") :
    getField (setField (setField data "$ready" (Value.bool true)) tagId tag) "$ready" =
      some (Value.bool true) := by
  rw [getField_setField_ne _ _ _ _ htag, getField_setField_same]

theorem classifyKey_ready (cur data : Fields) (b : Batches)
    (hd : getField data "$ready" = some (Value.bool true)) :
    classifyKey cur data b "$ready" =
      if (getFieldD cur "$ready").strictEq (Value.bool true) then b
      else { b with normalData := setField b.normalData "$ready" (Value.bool true) } := by
  have h1 : getFieldD data "$ready" = Value.bool true := by simp [getFieldD, hd]
  unfold classifyKey
  simp only [h1, isArray, Bool.false_and, Bool.false_eq_true, if_false, diffData_true,
    isPlainObject]
  cases (getFieldD cur "$ready").strictEq (Value.bool true) <;> simp

theorem classify_ready (cur data : Fields) (fresh : Nat)
    (hd : getField data "$ready" = some (Value.bool true)) :
    getField (classify cur data fresh).normalData "$ready" =
        (if (getFieldD cur "$ready").strictEq (Value.bool true) then none
          else some (Value.bool true))
      ∧ getField (classify cur data fresh).arrayData "$ready" = none := by
  constructor
  · by_cases hh : (getFieldD cur "$ready").strictEq (Value.bool true) = true
    · simp only [hh, if_true]
      have := foldl_normalData_kept cur data "$ready"
        (fun b => by rw [classifyKey_ready cur data b hd]; simp [hh])
        (data.map Prod.fst) ⟨[], [], fresh⟩
      rw [classify, this]
      rfl
    · simp only [hh, if_false, Bool.false_eq_true]
      have := foldl_normalData_written cur data "$ready" (fun v => v = Value.bool true)
        (fun b => ⟨_, rfl, by
          rw [classifyKey_ready cur data b hd]
          simp only [hh, if_false, Bool.false_eq_true]
          exact getField_setField_same _ _ _⟩)
        (data.map Prod.fst) ⟨[], [], fresh⟩ (Or.inl (mem_keys_of_getField _ _ _ hd))
      obtain ⟨v, rfl, hv⟩ := this
      exact hv
  · have := foldl_arrayData_kept cur data "$ready"
      (fun b => by
        rw [classifyKey_ready cur data b hd]
        split <;> rfl)
      (data.map Prod.fst) ⟨[], [], fresh⟩
    rw [classify, this]
    rfl

theorem classifyPlain_fold (cur data : Fields)
    (hd : getField data "$ready" = some (Value.bool true)) :
    ∀ (keys : List String) (acc : Fields),
      getField
          (keys.foldl
            (fun normalData key =>
              if diffData (getFieldD cur key) (getFieldD data key) then
                setField normalData key (getFieldD data key)
              else normalData) acc) "$ready" =
        if "$ready" ∈ keys ∧ (getFieldD cur "$ready").strictEq (Value.bool true) = false
          then some (Value.bool true)
          else getField acc "$ready" := by
  have h1 : getFieldD data "$ready" = Value.bool true := by simp [getFieldD, hd]
  intro keys
  induction keys with
  | nil => intro acc; simp
  | cons k rest ih =>
    intro acc
    rw [List.foldl_cons, ih]
    by_cases hk : k = "$ready"
    · subst hk
      simp only [h1, diffData_true, List.mem_cons, true_or, true_and]
      cases hh : (getFieldD cur "$ready").strictEq (Value.bool true)
      · simp [getField_setField_same]
      · simp
    · have hk2 : ¬ "$ready" = k := fun h => hk h.symm
      simp only [List.mem_cons, hk2, false_or]
      by_cases hin : "$ready" ∈ rest ∧ (getFieldD cur "$ready").strictEq (Value.bool true) = false
      · simp [hin]
      · simp only [hin, if_false]
        split
        · exact getField_setField_ne _ _ _ _ hk
        · rfl

theorem classifyPlain_ready (cur data : Fields)
    (hd : getField data "$ready" = some (Value.bool true)) :
    getField (classifyPlain cur data) "$ready" =
      (if (getFieldD cur "$ready").strictEq (Value.bool true) then none
        else some (Value.bool true)) := by
  unfold classifyPlain
  rw [classifyPlain_fold cur data hd]
  have hmem := mem_keys_of_getField _ _ _ hd
  cases hh : (getFieldD cur "$ready").strictEq (Value.bool true) <;> simp [hmem, getField]

theorem keys_setField (fs : Fields) (k : String) (v : Value) :
    (setField fs k v).map Prod.fst =
      if k ∈ fs.map Prod.fst then fs.map Prod.fst else fs.map Prod.fst ++ [k] := by
  induction fs with
  | nil => simp [setField]
  | cons e rest ih =>
    obtain ⟨k0, v0⟩ := e
    unfold setField
    by_cases h : (k0 == k) = true
    · have hk : k0 = k := by simpa using h
      simp [h, hk]
    · have hk : ¬ k = k0 := fun hh => h (by simp [hh])
      simp only [h, if_false, List.map_cons, ih, List.mem_cons, hk, false_or, Bool.false_eq_true]
      split <;> simp

theorem nodup_setField (fs : Fields) (k : String) (v : Value)
    (h : (fs.map Prod.fst).Nodup) : ((setField fs k v).map Prod.fst).Nodup := by
  rw [keys_setField]
  split
  · exact h
  · rename_i hk
    exact List.Nodup.append h (List.nodup_singleton k) (by
      intro a ha hb
      simp only [List.mem_singleton] at hb
      subst hb
      exact hk ha)

theorem classifyKey_nodup (cur data : Fields) (b : Batches) (key : String)
    (h : (b.normalData.map Prod.fst).Nodup) :
    ((classifyKey cur data b key).normalData.map Prod.fst).Nodup := by
  unfold classifyKey
  simp only
  split
  · exact h
  · split
    · split
      · exact nodup_setField _ _ _ h
      · exact nodup_setField _ _ _ h
    · exact h

theorem classify_nodup (cur data : Fields) (fresh : Nat) :
    ((classify cur data fresh).normalData.map Prod.fst).Nodup := by
  unfold classify
  have : ∀ (keys : List String) (b : Batches), (b.normalData.map Prod.fst).Nodup →
      ((keys.foldl (classifyKey cur data) b).normalData.map Prod.fst).Nodup := by
    intro keys
    induction keys with
    | nil => intro b hb; exact hb
    | cons k rest ih => intro b hb; exact ih _ (classifyKey_nodup cur data b k hb)
  exact this _ _ List.nodup_nil

theorem classifyPlain_nodup (cur data : Fields) :
    ((classifyPlain cur data).map Prod.fst).Nodup := by
  unfold classifyPlain
  have : ∀ (keys : List String) (acc : Fields), (acc.map Prod.fst).Nodup →
      ((keys.foldl
        (fun normalData key =>
          if diffData (getFieldD cur key) (getFieldD data key) then
            setField normalData key (getFieldD data key)
          else normalData) acc).map Prod.fst).Nodup := by
    intro keys
    induction keys with
    | nil => intro acc h; exact h
    | cons k rest ih =>
      intro acc h
      rw [List.foldl_cons]
      apply ih
      split
      · exact nodup_setField _ _ _ h
      · exact h
  exact this _ _ List.nodup_nil

theorem hostReact_callbacks (splice : Fields → Fields → Fields) (data : Fields) :
    ∀ es : List Event, (∀ e ∈ es, e.isCallback = true) → hostReact splice data es = data := by
  intro es
  induction es with
  | nil => intro _; rfl
  | cons e rest ih =>
    intro h
    have he := h e (List.mem_cons_self _ _)
    have hrest := ih (fun x hx => h x (List.mem_cons_of_mem _ hx))
    cases e <;> simp [Event.isCallback] at he
    simp [hostReact, hrest]

theorem callbackCalls_isCallback (queue : List Value) :
    ∀ e ∈ callbackCalls queue, e.isCallback = true ∧ e.fired = none := by
  intro e he
  unfold callbackCalls at he
  simp only [List.mem_filterMap] at he
  obtain ⟨cb, _, hcb⟩ := he
  cases cb <;> simp at hcb
  subst hcb
  exact ⟨rfl, rfl⟩

theorem getFieldD_ready_of_holds (host : Host) (h : holdsReady host = true) :
    getField host.data "$ready" = some (Value.bool true) := by
  unfold holdsReady getFieldD at h
  cases hg : getField host.data "$ready" with
  | none => rw [hg] at h; simp [Value.strictEq] at h
  | some v =>
    rw [hg] at h
    cases v <;> simp [Value.strictEq] at h
    subst h
    rfl

theorem merge_ready (patch data : Fields) (hnd : (patch.map Prod.fst).Nodup)
    (h : getField patch "$ready" = some (Value.bool true)
      ∨ (getField patch "$ready" = none ∧ getField data "$ready" = some (Value.bool true))) :
    getField (patch.foldl (fun acc e => setField acc e.1 e.2) data) "$ready" =
      some (Value.bool true) := by
  rw [getField_foldl_setField "$ready" patch data hnd]
  rcases h with h | ⟨h1, h2⟩
  · rw [h]
  · rw [h1]; exact h2

theorem setData_ready_splice (c : Code) (dataRef : Nat) (data : Fields) (w : World) (host : Host)
    (hint : w.self._internal = some host)
    (hsp : host.hasSpliceData = true)
    (hd : getField data "$ready" = some (Value.bool true))
    (hq : ∀ cb ∈ w.self._pendingCallbacks, isFunction cb = true) :
    ∃ calls cm queue fresh,
      _setData c dataRef data w =
          (.ok (),
            { w with
              fresh := fresh,
              events := w.events ++ calls,
              commits := w.commits ++ cm,
              self := { w.self with _internal := some host, _pendingCallbacks := queue } })
        ∧ (∀ e ∈ calls, e.fired = none)
        ∧ (∀ splice : Fields → Fields → Fields,
            (∀ d p, getField p "$ready" = none →
              getField (splice d p) "$ready" = getField d "$ready") →
            getField (hostReact splice host.data calls) "$ready" = some (Value.bool true))
        ∧ (holdsReady host = false →
            cm = [⟨Value.bool true⟩] ∧ queue = w.self._pendingCallbacks
              ∧ ∀ e ∈ calls, e.isCallback = false)
        ∧ (holdsReady host = true →
            (cm = [] ∧ queue = [] ∧ calls = callbackCalls w.self._pendingCallbacks)
              ∨ (∃ ready : Value, ready.truthy = false ∧ cm = [⟨ready⟩]
                  ∧ queue = w.self._pendingCallbacks ∧ ∀ e ∈ calls, e.isCallback = false)) := by
  obtain ⟨hn, ha⟩ := classify_ready host.data data w.fresh hd
  have hnd := classify_nodup host.data data w.fresh
  have hself : ∀ q, ({ w.self with _pendingCallbacks := q } : Component) =
      { w.self with _internal := some host, _pendingCallbacks := q } := by
    intro q; rw [← hint]
  cases e1 : isEmptyObj (classify host.data data w.fresh).normalData <;>
    cases e2 : isEmptyObj (classify host.data data w.fresh).arrayData
  · -- both batches non-empty
    have hlen : 0 < (plan c host data w.fresh).tasks.length := by simp [plan, hsp, e1, e2]
    refine ⟨[Event.setData (classify host.data data w.fresh).normalData,
        Event.spliceData (classify host.data data w.fresh).arrayData],
      [⟨getFieldD (classify host.data data w.fresh).normalData "$ready"⟩],
      w.self._pendingCallbacks, (classify host.data data w.fresh).fresh, ?_, ?_, ?_, ?_, ?_⟩
    · rw [setData_tasks c dataRef data w host hint hlen]
      simp [plan, hsp, e1, e2, invokeTasks, invokeTask]
    · intro e he
      simp only [List.mem_cons, List.mem_singleton, List.not_mem_nil, or_false] at he
      rcases he with rfl | rfl <;> rfl
    · intro splice hsplice
      simp only [hostReact]
      rw [hsplice _ _ ha]
      apply merge_ready _ _ hnd
      rw [hn]
      cases hh : holdsReady host
      · left; simp [holdsReady] at hh; simp [hh]
      · right
        have := getFieldD_ready_of_holds host hh
        simp [holdsReady] at hh
        simp [hh, this]
    · intro hh
      have hh2 : (getFieldD host.data "$ready").strictEq (Value.bool true) = false := hh
      rw [hh2] at hn
      refine ⟨?_, rfl, ?_⟩
      · simp [getFieldD, hn]
      · intro e he
        simp only [List.mem_cons, List.mem_singleton, List.not_mem_nil, or_false] at he
        rcases he with rfl | rfl <;> rfl
    · intro hh
      have hh2 : (getFieldD host.data "$ready").strictEq (Value.bool true) = true := hh
      rw [hh2] at hn
      right
      refine ⟨_, ?_, rfl, rfl, ?_⟩
      · simp [getFieldD, hn, Value.truthy]
      · intro e he
        simp only [List.mem_cons, List.mem_singleton, List.not_mem_nil, or_false] at he
        rcases he with rfl | rfl <;> rfl
  · -- only the replace batch
    have hlen : 0 < (plan c host data w.fresh).tasks.length := by simp [plan, hsp, e1, e2]
    refine ⟨[Event.setData (classify host.data data w.fresh).normalData],
      [⟨getFieldD (classify host.data data w.fresh).normalData "$ready"⟩],
      w.self._pendingCallbacks, (classify host.data data w.fresh).fresh, ?_, ?_, ?_, ?_, ?_⟩
    · rw [setData_tasks c dataRef data w host hint hlen]
      simp [plan, hsp, e1, e2, invokeTasks, invokeTask]
    · intro e he
      simp only [List.mem_singleton] at he
      subst he; rfl
    · intro splice _
      simp only [hostReact]
      apply merge_ready _ _ hnd
      rw [hn]
      cases hh : holdsReady host
      · left; simp [holdsReady] at hh; simp [hh]
      · right
        have := getFieldD_ready_of_holds host hh
        simp [holdsReady] at hh
        simp [hh, this]
    · intro hh
      have hh2 : (getFieldD host.data "$ready").strictEq (Value.bool true) = false := hh
      rw [hh2] at hn
      refine ⟨?_, rfl, ?_⟩
      · simp [getFieldD, hn]
      · intro e he
        simp only [List.mem_singleton] at he
        subst he; rfl
    · intro hh
      have hh2 : (getFieldD host.data "$ready").strictEq (Value.bool true) = true := hh
      rw [hh2] at hn
      right
      refine ⟨_, ?_, rfl, rfl, ?_⟩
      · simp [getFieldD, hn, Value.truthy]
      · intro e he
        simp only [List.mem_singleton] at he
        subst he; rfl
  · -- only the splice batch: the host holds `$ready`
    have hempty : (classify host.data data w.fresh).normalData = [] := by
      simpa [isEmptyObj] using e1
    have hheld : holdsReady host = true := by
      rw [hempty] at hn
      cases hh : holdsReady host
      · have hh2 : (getFieldD host.data "$ready").strictEq (Value.bool true) = false := hh
        rw [hh2] at hn
        simp [getField] at hn
      · rfl
    have hlen : 0 < (plan c host data w.fresh).tasks.length := by simp [plan, hsp, e1, e2]
    refine ⟨[Event.spliceData (classify host.data data w.fresh).arrayData],
      [⟨Value.bool false⟩],
      w.self._pendingCallbacks, (classify host.data data w.fresh).fresh, ?_, ?_, ?_, ?_, ?_⟩
    · rw [setData_tasks c dataRef data w host hint hlen]
      simp [plan, hsp, e1, e2, invokeTasks, invokeTask]
    · intro e he
      simp only [List.mem_singleton] at he
      subst he; rfl
    · intro splice hsplice
      simp only [hostReact]
      rw [hsplice _ _ ha]
      exact getFieldD_ready_of_holds host hheld
    · intro hh
      rw [hheld] at hh
      cases hh
    · intro _
      right
      refine ⟨Value.bool false, rfl, rfl, rfl, ?_⟩
      intro e he
      simp only [List.mem_singleton] at he
      subst he; rfl
  · -- no batch: the host holds `$ready`, the callbacks run at once
    have hempty : (classify host.data data w.fresh).normalData = [] := by
      simpa [isEmptyObj] using e1
    have hheld : holdsReady host = true := by
      rw [hempty] at hn
      cases hh : holdsReady host
      · have hh2 : (getFieldD host.data "$ready").strictEq (Value.bool true) = false := hh
        rw [hh2] at hn
        simp [getField] at hn
      · rfl
    have hlen : (plan c host data w.fresh).tasks.length = 0 := by simp [plan, hsp, e1, e2]
    refine ⟨callbackCalls w.self._pendingCallbacks, [], [],
      (classify host.data data w.fresh).fresh, ?_, ?_, ?_, ?_, ?_⟩
    · rw [setData_no_tasks c dataRef data w host hint hq hlen, hself]
      simp [plan, hsp]
    · intro e he
      exact (callbackCalls_isCallback _ e he).2
    · intro splice _
      rw [hostReact_callbacks splice _ _ (fun e he => (callbackCalls_isCallback _ e he).1)]
      exact getFieldD_ready_of_holds host hheld
    · intro hh
      rw [hheld] at hh
      cases hh
    · intro _
      left
      exact ⟨rfl, rfl, rfl⟩

theorem setData_ready_plain (c : Code) (dataRef : Nat) (data : Fields) (w : World) (host : Host)
    (hint : w.self._internal = some host)
    (hsp : host.hasSpliceData = false) (hquick : c.isQuickApp = false)
    (hd : getField data "$ready" = some (Value.bool true))
    (hq : ∀ cb ∈ w.self._pendingCallbacks, isFunction cb = true) :
    ∃ calls cm queue fresh,
      _setData c dataRef data w =
          (.ok (),
            { w with
              fresh := fresh,
              events := w.events ++ calls,
              commits := w.commits ++ cm,
              self := { w.self with _internal := some host, _pendingCallbacks := queue } })
        ∧ (∀ e ∈ calls, e.fired = none)
        ∧ (∀ splice : Fields → Fields → Fields,
            (∀ d p, getField p "$ready" = none →
              getField (splice d p) "$ready" = getField d "$ready") →
            getField (hostReact splice host.data calls) "$ready" = some (Value.bool true))
        ∧ (holdsReady host = false →
            cm = [⟨Value.bool true⟩] ∧ queue = w.self._pendingCallbacks
              ∧ ∀ e ∈ calls, e.isCallback = false)
        ∧ (holdsReady host = true →
            (cm = [] ∧ queue = [] ∧ calls = callbackCalls w.self._pendingCallbacks)
              ∨ (∃ ready : Value, ready.truthy = false ∧ cm = [⟨ready⟩]
                  ∧ queue = w.self._pendingCallbacks ∧ ∀ e ∈ calls, e.isCallback = false)) := by
  have hn := classifyPlain_ready host.data data hd
  have hnd := classifyPlain_nodup host.data data
  have hself : ∀ q, ({ w.self with _pendingCallbacks := q } : Component) =
      { w.self with _internal := some host, _pendingCallbacks := q } := by
    intro q; rw [← hint]
  cases e1 : isEmptyObj (classifyPlain host.data data)
  · have hlen : 0 < (plan c host data w.fresh).tasks.length := by simp [plan, hsp, hquick, e1]
    refine ⟨[Event.setData (classifyPlain host.data data)],
      [⟨getFieldD (classifyPlain host.data data) "$ready"⟩],
      w.self._pendingCallbacks, w.fresh, ?_, ?_, ?_, ?_, ?_⟩
    · rw [setData_tasks c dataRef data w host hint hlen]
      simp [plan, hsp, hquick, e1, invokeTasks, invokeTask]
    · intro e he
      simp only [List.mem_singleton] at he
      subst he; rfl
    · intro splice _
      simp only [hostReact]
      apply merge_ready _ _ hnd
      rw [hn]
      cases hh : holdsReady host
      · left; simp [holdsReady] at hh; simp [hh]
      · right
        have := getFieldD_ready_of_holds host hh
        simp [holdsReady] at hh
        simp [hh, this]
    · intro hh
      have hh2 : (getFieldD host.data "$ready").strictEq (Value.bool true) = false := hh
      rw [hh2] at hn
      refine ⟨?_, rfl, ?_⟩
      · simp [getFieldD, hn]
      · intro e he
        simp only [List.mem_singleton] at he
        subst he; rfl
    · intro hh
      have hh2 : (getFieldD host.data "$ready").strictEq (Value.bool true) = true := hh
      rw [hh2] at hn
      right
      refine ⟨_, ?_, rfl, rfl, ?_⟩
      · simp [getFieldD, hn, Value.truthy]
      · intro e he
        simp only [List.mem_singleton] at he
        subst he; rfl
  · have hempty : classifyPlain host.data data = [] := by
      simpa [isEmptyObj] using e1
    have hheld : holdsReady host = true := by
      rw [hempty] at hn
      cases hh : holdsReady host
      · have hh2 : (getFieldD host.data "$ready").strictEq (Value.bool true) = false := hh
        rw [hh2] at hn
        simp [getField] at hn
      · rfl
    have hlen : (plan c host data w.fresh).tasks.length = 0 := by simp [plan, hsp, hquick, e1]
    refine ⟨callbackCalls w.self._pendingCallbacks, [], [], w.fresh, ?_, ?_, ?_, ?_, ?_⟩
    · rw [setData_no_tasks c dataRef data w host hint hq hlen, hself]
      simp [plan, hsp, hquick]
    · intro e he
      exact (callbackCalls_isCallback _ e he).2
    · intro splice _
      rw [hostReact_callbacks splice _ _ (fun e he => (callbackCalls_isCallback _ e he).1)]
      exact getFieldD_ready_of_holds host hheld
    · intro hh
      rw [hheld] at hh
      cases hh
    · intro _
      left
      exact ⟨rfl, rfl, rfl⟩

/-- What `_setData` does on a host written through `setData`, for data that hold
`$ready = true`. -/
theorem setData_ready_spec (c : Code) (dataRef : Nat) (data : Fields) (w : World) (host : Host)
    (hint : w.self._internal = some host)
    (hvar : host.hasSpliceData = true ∨ c.isQuickApp = false)
    (hd : getField data "$ready" = some (Value.bool true))
    (hq : ∀ cb ∈ w.self._pendingCallbacks, isFunction cb = true) :
    ∃ calls cm queue fresh,
      _setData c dataRef data w =
          (.ok (),
            { w with
              fresh := fresh,
              events := w.events ++ calls,
              commits := w.commits ++ cm,
              self := { w.self with _internal := some host, _pendingCallbacks := queue } })
        ∧ (∀ e ∈ calls, e.fired = none)
        ∧ (∀ splice : Fields → Fields → Fields,
            (∀ d p, getField p "$ready" = none →
              getField (splice d p) "$ready" = getField d "$ready") →
            getField (hostReact splice host.data calls) "$ready" = some (Value.bool true))
        ∧ (holdsReady host = false →
            cm = [⟨Value.bool true⟩] ∧ queue = w.self._pendingCallbacks
              ∧ ∀ e ∈ calls, e.isCallback = false)
        ∧ (holdsReady host = true →
            (cm = [] ∧ queue = [] ∧ calls = callbackCalls w.self._pendingCallbacks)
              ∨ (∃ ready : Value, ready.truthy = false ∧ cm = [⟨ready⟩]
                  ∧ queue = w.self._pendingCallbacks ∧ ∀ e ∈ calls, e.isCallback = false)) := by
  cases hsp : host.hasSpliceData with
  | true => exact setData_ready_splice c dataRef data w host hint hsp hd hq
  | false =>
    rcases hvar with h | h
    · rw [hsp] at h; cases h
    · exact setData_ready_plain c dataRef data w host hint hsp h hd hq

theorem updateData_ready_spec (c : Code) (dataRef : Nat) (data : Fields) (w : World) (host : Host)
    (tag : Value)
    (hint : w.self._internal = some host)
    (hvar : host.hasSpliceData = true ∨ c.isQuickApp = false)
    (htag : getProp w.self.props c.TAGID = some tag)
    (hne : c.TAGID ≠ "$ready")
    (hq : ∀ cb ∈ w.self._pendingCallbacks, isFunction cb = true) :
    ∃ calls cm queue fresh,
      _updateData c dataRef data w =
        (.ok (),
          { w with
            fresh := fresh,
            events := w.events ++ calls,
            commits := w.commits ++ cm,
            self := { w.self with
              __updating := true, _internal := some host, _pendingCallbacks := queue } })
      ∧ (∀ e ∈ calls, e.fired = none)
      ∧ (∀ splice : Fields → Fields → Fields,
          (∀ d p, getField p "$ready" = none →
            getField (splice d p) "$ready" = getField d "$ready") →
          getField (hostReact splice host.data calls) "$ready" = some (Value.bool true))
      ∧ (holdsReady host = false →
          cm = [⟨Value.bool true⟩] ∧ queue = w.self._pendingCallbacks
            ∧ ∀ e ∈ calls, e.isCallback = false)
      ∧ (holdsReady host = true →
          (cm = [] ∧ queue = [] ∧ calls = callbackCalls w.self._pendingCallbacks)
          ∨ (∃ ready : Value, ready.truthy = false ∧ cm = [⟨ready⟩]
              ∧ queue = w.self._pendingCallbacks ∧ ∀ e ∈ calls, e.isCallback = false)) := by
  have hd := getField_ready_of_updateData data c.TAGID tag hne
  obtain ⟨calls, cm, queue, fresh, h1, h2, h3, h4, h5⟩ :=
    setData_ready_spec c dataRef (setField (setField data "$ready" (Value.bool true)) c.TAGID tag)
      { w with self := { w.self with __updating := true } } host hint hvar hd hq
  refine ⟨calls, cm, queue, fresh, ?_, h2, h3, h4, h5⟩
  have hnone : w.self._internal.isNone = false := by rw [hint]; rfl
  unfold _updateData
  simp only [hnone, htag, Bool.false_eq_true, if_false]
  exact h1

theorem holdsReady_of_getField (host : Host)
    (h : getField host.data "$ready" = some (Value.bool true)) : holdsReady host = true := by
  simp [holdsReady, getFieldD, h, Value.strictEq]

theorem round_spec (c : Code) (splice : Fields → Fields → Fields)
    (hsplice : ∀ d p, getField p "$ready" = none →
      getField (splice d p) "$ready" = getField d "$ready")
    (d : Nat × Fields) (w : World) (host : Host) (tag : Value)
    (hint : w.self._internal = some host)
    (hvar : host.hasSpliceData = true ∨ c.isQuickApp = false)
    (htag : getProp w.self.props c.TAGID = some tag)
    (hne : c.TAGID ≠ "$ready")
    (hq : ∀ cb ∈ w.self._pendingCallbacks, isFunction cb = true)
    (hc : w.commits = []) :
    ∃ hostCalls host1 fresh,
      round c splice d w =
        (.ok (),
          { w with
            fresh := fresh,
            commits := [],
            events := w.events ++ hostCalls
              ++ (if holdsReady host then []
                  else cycleEvents c w.self Cycle.COMPONENT_DID_MOUNT [])
              ++ callbackCalls w.self._pendingCallbacks,
            self := { w.self with
              __updating := true, _internal := some host1, _pendingCallbacks := [] } })
      ∧ (∀ e ∈ hostCalls, e.fired = none ∧ e.isCallback = false)
      ∧ holdsReady host1 = true
      ∧ host1.hasSpliceData = host.hasSpliceData := by
  obtain ⟨calls, cm, queue, fresh, h1, h2, h3, h4, h5⟩ :=
    updateData_ready_spec c d.1 d.2 w host tag hint hvar htag hne hq
  have h3 := h3 splice hsplice
  have hheld : holdsReady { host with data := hostReact splice host.data calls } = true :=
    holdsReady_of_getField _ h3
  unfold round
  simp only [h1, List.drop_left, Option.map_some', hc, List.nil_append]
  cases hh : holdsReady host
  · obtain ⟨hcm, hqueue, hcalls⟩ := h4 hh
    subst hcm hqueue
    refine ⟨calls, _, fresh, ?_, fun e he => ⟨h2 e he, hcalls e he⟩, hheld, rfl⟩
    rw [settle_eq c _ ⟨Value.bool true⟩ []]
    · simp [Value.truthy, cycleEvents, List.append_assoc]
    · rfl
    · exact hq
  · rcases h5 hh with ⟨hcm, hqueue, hcalls⟩ | ⟨ready, hr, hcm, hqueue, hcalls⟩
    · subst hcm hqueue hcalls
      refine ⟨[], _, fresh, ?_, fun e he => absurd he (List.not_mem_nil e), hheld, rfl⟩
      simp [settle]
    · subst hcm hqueue
      refine ⟨calls, _, fresh, ?_, fun e he => ⟨h2 e he, hcalls e he⟩, hheld, rfl⟩
      rw [settle_eq c _ ⟨ready⟩ []]
      · simp [hr, List.append_assoc]
      · rfl
      · exact hq

theorem round_frame (c : Code) (splice : Fields → Fields → Fields)
    (hsplice : ∀ d p, getField p "$ready" = none →
      getField (splice d p) "$ready" = getField d "$ready")
    (d : Nat × Fields) (w : World) (host : Host) (tag : Value)
    (hint : w.self._internal = some host)
    (hvar : host.hasSpliceData = true ∨ c.isQuickApp = false)
    (htag : getProp w.self.props c.TAGID = some tag)
    (hne : c.TAGID ≠ "$ready")
    (hq : ∀ cb ∈ w.self._pendingCallbacks, isFunction cb = true)
    (hc : w.commits = []) :
    ∃ hostCalls w1 host1,
      round c splice d w = (.ok (), w1)
      ∧ w1.events = w.events ++ hostCalls
          ++ (if holdsReady host then []
              else cycleEvents c w.self Cycle.COMPONENT_DID_MOUNT [])
          ++ callbackCalls w.self._pendingCallbacks
      ∧ (∀ e ∈ hostCalls, e.fired = none ∧ e.isCallback = false)
      ∧ w1.self._internal = some host1
      ∧ holdsReady host1 = true
      ∧ (host1.hasSpliceData = true ∨ c.isQuickApp = false)
      ∧ getProp w1.self.props c.TAGID = some tag
      ∧ w1.self._pendingCallbacks = []
      ∧ w1.commits = [] := by
  obtain ⟨hostCalls, host1, fresh, hround, hcalls, hheld1, hsp1⟩ :=
    round_spec c splice hsplice d w host tag hint hvar htag hne hq hc
  have hvar1 : host1.hasSpliceData = true ∨ c.isQuickApp = false := by
    rw [hsp1]; exact hvar
  exact ⟨hostCalls, _, host1, hround, rfl, hcalls, rfl, hheld1, hvar1, htag, rfl, rfl⟩

theorem rounds_fire_nothing (c : Code) (splice : Fields → Fields → Fields)
    (hsplice : ∀ d p, getField p "$ready" = none →
      getField (splice d p) "$ready" = getField d "$ready")
    (hne : c.TAGID ≠ "$ready") (ds : List (Nat × Fields)) :
    ∀ (w : World) (host : Host) (tag : Value),
      w.self._internal = some host →
      (host.hasSpliceData = true ∨ c.isQuickApp = false) →
      getProp w.self.props c.TAGID = some tag →
      holdsReady host = true →
      w.self._pendingCallbacks = [] →
      w.commits = [] →
      ∃ later w2, rounds c splice ds w = (.ok (), w2)
        ∧ w2.events = w.events ++ later
        ∧ ∀ e ∈ later, e.fired = none := by
  induction ds with
  | nil =>
    intro w host tag _ _ _ _ _ _
    exact ⟨[], w, rfl, (List.append_nil _).symm, fun e he => absurd he (List.not_mem_nil e)⟩
  | cons d rest ih =>
    intro w host tag hint hvar htag hheld hcb hc
    have hq : ∀ cb ∈ w.self._pendingCallbacks, isFunction cb = true := by
      intro cb hmem
      rw [hcb] at hmem
      exact absurd hmem (List.not_mem_nil cb)
    obtain ⟨hostCalls, w1, host1, hround, hev1, hcalls, hint1, hheld1, hvar1, htag1, hcb1, hc1⟩ :=
      round_frame c splice hsplice d w host tag hint hvar htag hne hq hc
    obtain ⟨later, w2, hrest, hev, hlater⟩ :=
      ih w1 host1 tag hint1 hvar1 htag1 hheld1 hcb1 hc1
    refine ⟨hostCalls ++ later, w2, ?_, ?_, ?_⟩
    · simp only [rounds, M.bind, hround]
      exact hrest
    · rw [hev, hev1]
      simp [hheld, hcb, callbackCalls, List.append_assoc]
    · intro e he
      rcases List.mem_append.1 he with h | h
      · exact (hcalls e h).1
      · exact hlater e h

/-- C19: on a host written through `setData`, with or without `$spliceData`, that merges
each patch into its data, `_updateData(data)` followed by the completion of its host calls
makes the host calls, then fires did-mount exactly when the host's data did not hold
`$ready = true` before the call, and then invokes the pending callbacks; every later round
of `_updateData` fires no lifecycle event at all. -/
theorem didMount_iff_host_lacked_ready (c : Code) (splice : Fields → Fields → Fields)
    (d : Nat × Fields) (ds : List (Nat × Fields)) (w : World) (host : Host) (tag : Value)
    (hsplice : ∀ d p, getField p "$ready" = none →
      getField (splice d p) "$ready" = getField d "$ready")
    (hint : w.self._internal = some host)
    (hvar : host.hasSpliceData = true ∨ c.isQuickApp = false)
    (htag : getProp w.self.props c.TAGID = some tag)
    (hne : c.TAGID ≠ "$ready")
    (hq : ∀ cb ∈ w.self._pendingCallbacks, isFunction cb = true)
    (hc : w.commits = []) :
    ∃ hostCalls w1 later w2,
      round c splice d w = (.ok (), w1)
      ∧ w1.events = w.events ++ hostCalls
          ++ (if holdsReady host then []
              else cycleEvents c w.self Cycle.COMPONENT_DID_MOUNT [])
          ++ callbackCalls w.self._pendingCallbacks
      ∧ (∀ e ∈ hostCalls, e.fired = none ∧ e.isCallback = false)
      ∧ w1.self._pendingCallbacks = []
      ∧ rounds c splice ds w1 = (.ok (), w2)
      ∧ w2.events = w1.events ++ later
      ∧ ∀ e ∈ later, e.fired = none := by
  obtain ⟨hostCalls, w1, host1, hround, hev1, hcalls, hint1, hheld1, hvar1, htag1, hcb1, hc1⟩ :=
    round_frame c splice hsplice d w host tag hint hvar htag hne hq hc
  obtain ⟨later, w2, hrest, hev, hlater⟩ :=
    rounds_fire_nothing c splice hsplice hne ds w1 host1 tag hint1 hvar1 htag1 hheld1 hcb1 hc1
  exact ⟨hostCalls, w1, later, w2, hround, hev1, hcalls, hcb1, hrest, hev, hlater⟩

/-- Witness of C19: the sample instance with one pending callback on a host view that
holds no data; the first round fires did-mount, a second round fires nothing. -/
theorem didMount_iff_host_lacked_ready_witness :
    ∃ hostCalls w1 later w2,
      round sampleCode (fun data _ => data) (200, [("n", Value.num 1)])
          (withCallbacks sampleWorld [Value.func 41]) = (.ok (), w1)
      ∧ w1.events = (withCallbacks sampleWorld [Value.func 41]).events ++ hostCalls
          ++ (if holdsReady (spliceHost []) then []
              else cycleEvents sampleCode (withCallbacks sampleWorld [Value.func 41]).self
                Cycle.COMPONENT_DID_MOUNT [])
          ++ callbackCalls (withCallbacks sampleWorld [Value.func 41]).self._pendingCallbacks
      ∧ (∀ e ∈ hostCalls, e.fired = none ∧ e.isCallback = false)
      ∧ w1.self._pendingCallbacks = []
      ∧ rounds sampleCode (fun data _ => data) [(201, [("n", Value.num 2)])] w1 = (.ok (), w2)
      ∧ w2.events = w1.events ++ later
      ∧ ∀ e ∈ later, e.fired = none :=
  didMount_iff_host_lacked_ready sampleCode (fun data _ => data) (200, [("n", Value.num 1)])
    [(201, [("n", Value.num 2)])] (withCallbacks sampleWorld [Value.func 41]) (spliceHost [])
    Value.undefined (fun _ _ _ => rfl) rfl (Or.inl rfl) rfl (by decide)
    (by
      intro cb hcb
      simp only [withCallbacks, List.mem_singleton] at hcb
      subst hcb
      rfl)
    rfl

/-- C20, the code at the failing input: on the quick-app host the first commit adds
`$ready` to a view that did not have it and fires no did-mount, and the second commit, on
the view that holds `$ready = true`, fires did-mount: the task compares the view's
`$ready` with `data.ready`, which the rendered data do not have, not with `data.$ready`. -/
theorem quickApp_didMount_on_later_commit_only :
    quickFirst.events =
        [ Event.hostSet "n" (Value.num 1), Event.hostSet "$ready" (Value.bool true),
          Event.hostSet "tagId" Value.undefined, Event.nextTick ]
      ∧ quickFirst.self._internal.map Host.own =
          some [("n", Value.num 1), ("$ready", Value.bool true), ("tagId", Value.undefined)]
      ∧ quickSecond.events =
          quickFirst.events ++ [Event.nextTick, Event.own Cycle.COMPONENT_DID_MOUNT []] :=
  ⟨rfl, rfl, rfl⟩

/-! ## Update passes that re-render -/

theorem getProp_of_notNullish (v : Value) (k : String) (h : v.notNullish = true) :
    getProp v k = some (getFieldD (ownEntries v) k) := by
  cases v <;> simp [Value.notNullish] at h <;> rfl

theorem notNullish_or (a b : Value) (h : b.notNullish = true) : (a.or b).notNullish = true := by
  unfold Value.or
  split
  · rename_i ht
    cases a <;> simp [Value.truthy] at ht <;> rfl
  · exact h

/-- What `_updateData` changes when the props are an object and the pending callbacks are
functions: it returns normally, the calls it makes are host calls and pending callbacks,
and of the instance only `__updating`, the view and the pending callbacks change. -/
theorem updateData_frame (c : Code) (dataRef : Nat) (data : Fields) (w : World)
    (hprops : w.self.props.notNullish = true)
    (hcb : ∀ cb ∈ w.self._pendingCallbacks, isFunction cb = true) :
    ∃ es fresh commits updating internal callbacks,
      _updateData c dataRef data w =
        (.ok (),
          { w with
            fresh := fresh, events := w.events ++ es, commits := commits,
            self := { w.self with
              __updating := updating, _internal := internal, _pendingCallbacks := callbacks } })
      ∧ ∀ e ∈ es, e.fired = none := by
  cases hint : w.self._internal with
  | none =>
    refine ⟨[], w.fresh, w.commits, w.self.__updating, w.self._internal,
      w.self._pendingCallbacks, ?_, fun e he => absurd he (List.not_mem_nil e)⟩
    have hnone : w.self._internal.isNone = true := by rw [hint]; rfl
    unfold _updateData
    simp only [hnone, if_true, List.append_nil]
  | some host =>
    have hnone : w.self._internal.isNone = false := by rw [hint]; rfl
    have htag := getProp_of_notNullish w.self.props c.TAGID hprops
    unfold _updateData
    simp only [hnone, htag, Bool.false_eq_true, if_false]
    by_cases h0 : 0 < (plan c host
        (setField (setField data "$ready" (Value.bool true)) c.TAGID
          (getFieldD (ownEntries w.self.props) c.TAGID)) w.fresh).tasks.length
    · rw [setData_tasks c dataRef _ { w with self := { w.self with __updating := true } } host hint h0]
      exact ⟨_, _, _, true, _, w.self._pendingCallbacks, rfl,
        fun e he => (invokeTasks_events dataRef _ _ _ e he).2⟩
    · have h0 : (plan c host
          (setField (setField data "$ready" (Value.bool true)) c.TAGID
            (getFieldD (ownEntries w.self.props) c.TAGID)) w.fresh).tasks.length = 0 := by omega
      rw [setData_no_tasks c dataRef _ { w with self := { w.self with __updating := true } } host hint hcb h0]
      refine ⟨_, _, w.commits, true, w.self._internal, [], rfl, ?_⟩
      intro e he
      unfold callbackCalls at he
      simp only [List.mem_filterMap] at he
      obtain ⟨cb, _, hcb1⟩ := he
      cases cb <;> simp at hcb1
      subst hcb1
      rfl

/-- What `_injectContextType` changes: it returns normally, calls the emitter's `on` at
most, and of the instance only `context`, the dependencies and the will-unmount hooks
change. -/
theorem injectContextType_frame (c : Code) (w : World) :
    ∃ pre context deps cycles,
      _injectContextType c w =
        (.ok (),
          { w with
            events := w.events ++ pre,
            self := { w.self with context := context, __dependencies := deps, _cycles := cycles } })
      ∧ (∀ e ∈ pre, e.fired = none)
      ∧ cyclesOf cycles Cycle.COMPONENT_DID_UPDATE =
          cyclesOf w.self._cycles Cycle.COMPONENT_DID_UPDATE := by
  unfold _injectContextType
  cases hctx : c.contextType with
  | none =>
    refine ⟨[], w.self.context, w.self.__dependencies, w.self._cycles, ?_,
      fun e he => absurd he (List.not_mem_nil e), rfl⟩
    simp only [pure_eq, M.ret, List.append_nil]
  | some context =>
    simp only [bind_eq, M.bind, _readContext]
    cases hdep : w.self.__dependencies.find? (fun e => e.1 == context.contextProp) with
    | none =>
      refine ⟨[Event.emitterOn context.emitter], emitterValue w.emitters context.emitter,
        setDependency w.self.__dependencies context.contextProp
          ⟨context.emitter, emitterValue w.emitters context.emitter⟩,
        registerLifeCycle w.self._cycles Cycle.COMPONENT_WILL_UNMOUNT
          (Hook.unsubscribe context.emitter), ?_, ?_, ?_⟩
      · simp only [hdep, M.modify, _registerLifeCycle]
      · intro e he
        simp only [List.mem_singleton] at he
        subst he
        rfl
      · rw [cyclesOf_registerLifeCycle]
        simp
    | some entry =>
      refine ⟨[], emitterValue w.emitters entry.2.emitter,
        setDependency w.self.__dependencies context.contextProp
          ⟨entry.2.emitter, emitterValue w.emitters entry.2.emitter⟩,
        w.self._cycles, ?_, fun e he => absurd he (List.not_mem_nil e), rfl⟩
      simp only [hdep, M.modify, List.append_nil]

theorem index_nil (i : Nat) : index [] i = Value.undefined := by
  simp [index]

theorem undefined_or (v : Value) : Value.undefined.or v = v := rfl

/-- What firing the render without arguments does on an instance that has a render
method, object props and function callbacks: it returns normally; `render` is called once,
with the current props and state; every other call is a host call, a pending callback or
the emitter's `on`; and props, state, the pending states, `prevProps`, `prevState`, the
identity and the did-update hooks stay as they are. -/
theorem triggerRender_frame (c : Code) (w : World) (render : Value → Value → Option Fields)
    (hrender : c.render = some render)
    (hprops : w.self.props.notNullish = true)
    (hcb : ∀ cb ∈ w.self._pendingCallbacks, isFunction cb = true) :
    ∃ w1 pre post,
      triggerRender c [] w = (.ok (), w1)
      ∧ w1.events = w.events ++ pre ++ [Event.render w.self.props w.self.state] ++ post
      ∧ (∀ e ∈ pre ++ post, e.fired = none)
      ∧ w1.self.state = w.self.state
      ∧ w1.self.props = w.self.props
      ∧ w1.self._pendingStates = w.self._pendingStates
      ∧ w1.self.prevProps = w.self.prevProps
      ∧ w1.self.prevState = w.self.prevState
      ∧ w1.self.instanceId = w.self.instanceId
      ∧ cyclesOf w1.self._cycles Cycle.COMPONENT_DID_UPDATE =
          cyclesOf w.self._cycles Cycle.COMPONENT_DID_UPDATE := by
  obtain ⟨pre, context, deps, cycles, hinj, hpre, hcycles⟩ :=
    injectContextType_frame c { w with hostCurrent := true, self := { w.self with _hookID := 0 } }
  unfold triggerRender
  simp only [hrender, bind_eq, pure_eq, M.bind, M.modify, M.self, M.emit, M.ret, index_nil,
    undefined_or, hinj]
  cases hdata : render w.self.props w.self.state with
  | none =>
    refine ⟨_, pre, [], rfl, by simp, ?_, rfl, rfl, rfl, rfl, rfl, rfl, hcycles⟩
    simpa using hpre
  | some data =>
    simp only [M.alloc]
    obtain ⟨es, fresh, commits, updating, internal, callbacks, hupd, hes⟩ :=
      updateData_frame c w.fresh data
        { w with
          hostCurrent := true,
          fresh := w.fresh + 1,
          events := w.events ++ pre ++ [Event.render w.self.props w.self.state],
          self := { w.self with
            _hookID := 0, context := context, __dependencies := deps, _cycles := cycles } }
        hprops hcb
    refine ⟨_, pre, es, hupd, rfl, ?_, rfl, rfl, rfl, rfl, rfl, rfl, hcycles⟩
    intro e he
    rcases List.mem_append.1 he with h | h
    · exact hpre e h
    · exact hes e h

theorem cycleEvents_congr (c : Code) (a b : Component) (cycle : Cycle) (args : List Value)
    (hid : a.instanceId = b.instanceId)
    (hcycles : cyclesOf a._cycles cycle = cyclesOf b._cycles cycle) :
    cycleEvents c a cycle args = cycleEvents c b cycle args := by
  unfold cycleEvents
  rw [hid, hcycles]

/-- What step 8 of an update pass does on an instance that has a render method, object
next props and function callbacks: it returns normally and calls, in this order, the
will-update callbacks with the next props and state, `setComponentProps`, the render with
the next props and state, once, and the did-update callbacks with the locals `prevProps`
and `prevState`; it commits the next props and state and snapshots the props and state it
started with into `prevProps` and `prevState`. -/
theorem commitUpdate_frame (c : Code) (p : Pass) (w : World)
    (render : Value → Value → Option Fields)
    (hrender : c.render = some render)
    (hprops : p.nextProps.notNullish = true)
    (hcb : ∀ cb ∈ w.self._pendingCallbacks, isFunction cb = true) :
    ∃ w1 pre post,
      commitUpdate c p w = (.ok (), w1)
      ∧ w1.events =
          w.events ++ cycleEvents c w.self Cycle.COMPONENT_WILL_UPDATE [p.nextProps, p.nextState]
            ++ [Event.setComponentProps w.self.instanceId]
            ++ pre ++ [Event.render p.nextProps p.nextState] ++ post
            ++ cycleEvents c w.self Cycle.COMPONENT_DID_UPDATE [p.prevProps, p.prevState]
      ∧ (∀ e ∈ pre ++ post, e.fired = none)
      ∧ w1.self.state = p.nextState
      ∧ w1.self.props = p.nextProps
      ∧ w1.self._pendingStates = w.self._pendingStates
      ∧ w1.self.prevProps = w.self.props
      ∧ w1.self.prevState = w.self.state := by
  have href := getProp_of_notNullish p.nextProps "ref" hprops
  obtain ⟨w1, pre, post, hr, hev, hquiet, hstate, hp, hpending, hpp, hps, hid, hcycles⟩ :=
    triggerRender_frame c
      { w with
        events := w.events
          ++ cycleEvents c w.self Cycle.COMPONENT_WILL_UPDATE [p.nextProps, p.nextState]
          ++ [Event.setComponentProps w.self.instanceId],
        self := { w.self with
          prevProps := w.self.props, prevState := w.self.state,
          props := p.nextProps, state := p.nextState,
          __prevForwardRef := w.self._forwardRef,
          _forwardRef := getFieldD (ownEntries p.nextProps) "ref",
          __forceUpdate := Value.bool false } }
      render hrender hprops hcb
  refine ⟨{ w1 with events := w1.events
      ++ cycleEvents c w1.self Cycle.COMPONENT_DID_UPDATE [p.prevProps, p.prevState] },
    pre, post, ?_, ?_, hquiet, hstate, hp, hpending, hpp, hps⟩
  · unfold commitUpdate
    simp only [bind_eq, M.bind, _trigger, triggerCycle_eq, M.modify, M.self, M.emit, href]
    rw [hr]
  · show w1.events ++ _ = _
    rw [hev, cycleEvents_congr c w1.self w.self _ _ hid hcycles]

theorem deriveState_eq (c : Code) (props state : Value) (w : World) :
    ∃ out fresh,
      deriveState c props state w = (.ok out, { w with fresh := fresh })
      ∧ out.getD state = passState c props state w.fresh := by
  unfold deriveState passState
  cases c.getDerivedStateFromProps with
  | none => exact ⟨none, w.fresh, rfl, rfl⟩
  | some f =>
    by_cases h : (f props state).truthy = true
    · refine ⟨some (Value.obj w.fresh (assign [] (f props state))), w.fresh + 1, ?_, ?_⟩
      · simp only [h, if_true, bind_eq, pure_eq, M.bind, M.alloc, M.ret]
      · simp only [h, if_true, Option.getD_some]
    · refine ⟨none, w.fresh, ?_, ?_⟩
      · simp only [h, if_false, pure_eq, M.ret, Bool.false_eq_true]
      · simp only [h, if_false, Option.getD_none, Bool.false_eq_true]

theorem prepareUpdate_of_fold (c : Code) (w : World) (s : Fields)
    (hq : ∀ e ∈ w.self._pendingStates, isPlainObject e = true ∨ isFunction e = true)
    (hfold : foldEntries c (w.self.prevProps.or w.self.props) w.fresh w.self.state
      w.self._pendingStates = .ok s) :
    ∃ fresh,
      prepareUpdate c w =
        (.ok ⟨w.self.nextProps.or w.self.props, w.self.prevProps.or w.self.props,
            passState c (w.self.nextProps.or w.self.props) (Value.obj w.fresh s) (w.fresh + 1),
            w.self.prevState.or w.self.state⟩,
          { afterStep2 c w with
            fresh := fresh,
            self := { (afterStep2 c w).self with _pendingStates := [] } }) := by
  have hloop := collectLoop_eq_fold c (w.self.prevProps.or w.self.props) w.fresh
    w.self._pendingStates _ s hq hfold
  have hcollect : _collectState c (afterStep2 c w) =
      (.ok (Value.obj w.fresh s),
        { afterStep2 c w with
          fresh := w.fresh + 1,
          self := { (afterStep2 c w).self with _pendingStates := [] } }) := by
    unfold _collectState
    have h3 : (afterStep2 c w).self.props = w.self.prevProps.or w.self.props := rfl
    have h4 : (afterStep2 c w).fresh = w.fresh := rfl
    have h5 : (afterStep2 c w).self.state = w.self.state := rfl
    have h6 : (afterStep2 c w).self._pendingStates = w.self._pendingStates := rfl
    simp only [h3, h4, h5, h6, hloop]
  obtain ⟨out, fresh, hderive, hout⟩ :=
    deriveState_eq c (w.self.nextProps.or w.self.props) (Value.obj w.fresh s)
      { afterStep2 c w with
        fresh := w.fresh + 1,
        self := { (afterStep2 c w).self with _pendingStates := [] } }
  refine ⟨fresh, ?_⟩
  rw [prepareUpdate_unfold]
  simp only [M.bind, hcollect, hderive, M.ret, hout]

/-- An update pass that re-renders, on a mounted instance whose pending queue holds plain
objects and updaters that return, with object props, function callbacks and a render
method: it returns normally; the state it commits and renders is `passState` of the fold
of the queue over the prior state; the queue ends empty; `prevProps` and `prevState` are
the props and state the commit step started with; and the calls are, in this order, the
will-receive-props callbacks if the next props differ from the baseline, the will-update
callbacks, `setComponentProps`, the render, once, and the did-update callbacks, whose
arguments are the baseline props and the old `prevState` (or the state, if that is
falsy). -/
theorem updateComponent_rerenders (c : Code) (w : World) (s : Fields)
    (render : Value → Value → Option Fields)
    (hm : w.self.__mounted = true)
    (hq : ∀ e ∈ w.self._pendingStates, isPlainObject e = true ∨ isFunction e = true)
    (hfold : foldEntries c (w.self.prevProps.or w.self.props) w.fresh w.self.state
      w.self._pendingStates = .ok s)
    (hprops : (w.self.nextProps.or w.self.props).notNullish = true)
    (hcb : ∀ cb ∈ w.self._pendingCallbacks, isFunction cb = true)
    (hrender : c.render = some render)
    (hdec : (c.shouldComponentUpdate = none ∧ w.self.__forceUpdate.truthy = false)
      ∨ ∃ f, c.shouldComponentUpdate = some f
          ∧ (f (w.self.nextProps.or w.self.props)
              (passState c (w.self.nextProps.or w.self.props) (Value.obj w.fresh s)
                (w.fresh + 1))).truthy = true) :
    ∃ w1 pre post,
      _updateComponent c w = (.ok (), w1)
      ∧ w1.self.state =
          passState c (w.self.nextProps.or w.self.props) (Value.obj w.fresh s) (w.fresh + 1)
      ∧ w1.self.props = w.self.nextProps.or w.self.props
      ∧ w1.self._pendingStates = []
      ∧ w1.self.prevProps = w.self.prevProps.or w.self.props
      ∧ w1.self.prevState = w.self.state
      ∧ w1.events =
          w.events
            ++ (if shallowEqual (w.self.prevProps.or w.self.props)
                  (w.self.nextProps.or w.self.props) then []
                else cycleEvents c w.self Cycle.COMPONENT_WILL_RECEIVE_PROPS
                  [w.self.nextProps.or w.self.props])
            ++ cycleEvents c w.self Cycle.COMPONENT_WILL_UPDATE
                [ w.self.nextProps.or w.self.props,
                  passState c (w.self.nextProps.or w.self.props) (Value.obj w.fresh s)
                    (w.fresh + 1) ]
            ++ [Event.setComponentProps w.self.instanceId]
            ++ pre
            ++ [Event.render (w.self.nextProps.or w.self.props)
                (passState c (w.self.nextProps.or w.self.props) (Value.obj w.fresh s)
                  (w.fresh + 1))]
            ++ post
            ++ cycleEvents c w.self Cycle.COMPONENT_DID_UPDATE
                [w.self.prevProps.or w.self.props, w.self.prevState.or w.self.state]
      ∧ ∀ e ∈ pre ++ post, e.fired = none := by
  obtain ⟨fresh, hprep⟩ := prepareUpdate_of_fold c w s hq hfold
  have hdecide : ∃ v : Value, v.truthy = true ∧
      ∀ w0 : World,
        decideShouldUpdate c w.self.__forceUpdate (w.self.nextProps.or w.self.props)
          (passState c (w.self.nextProps.or w.self.props) (Value.obj w.fresh s) (w.fresh + 1))
          w0 = (.ok v, w0) := by
    rcases hdec with ⟨hnone, hforce⟩ | ⟨f, hsome, hf⟩
    · refine ⟨Value.bool true, rfl, ?_⟩
      intro w0
      unfold decideShouldUpdate
      simp only [hforce, hnone, Option.isSome_none, Bool.or_self, Bool.false_eq_true,
        if_false, pure_eq, M.ret]
    · refine ⟨_, hf, ?_⟩
      intro w0
      unfold decideShouldUpdate
      simp only [hsome, Option.isSome_some, Bool.or_true, if_true, pure_eq, M.ret]
  obtain ⟨v, hv, hdecide⟩ := hdecide
  obtain ⟨w1, pre, post, hcommit, hev, hquiet, hstate, hp, hpending, hpp, hps⟩ :=
    commitUpdate_frame c
      ⟨w.self.nextProps.or w.self.props, w.self.prevProps.or w.self.props,
        passState c (w.self.nextProps.or w.self.props) (Value.obj w.fresh s) (w.fresh + 1),
        w.self.prevState.or w.self.state⟩
      { afterStep2 c w with
        fresh := fresh,
        self := { (afterStep2 c w).self with _pendingStates := [], __shouldUpdate := v } }
      render hrender hprops hcb
  refine ⟨w1, pre, post, ?_, hstate, hp, hpending, hpp, hps, ?_, hquiet⟩
  · unfold _updateComponent
    simp only [bind_eq, pure_eq, M.bind, M.self, M.modify, hm, Bool.not_true,
      Bool.false_eq_true, if_false, hprep]
    have hf2 : (afterStep2 c w).self.__forceUpdate = w.self.__forceUpdate := rfl
    simp only [hf2, hdecide, hv, if_true]
    exact hcommit
  · rw [hev]
    rfl

/-- The pass theorem on the mounted sample with the queue `[{a: 1}, f]`, where the updater
`f` counts in `n`: the committed state is `{a: 1, n: 1}` and the queue ends empty. -/
theorem updateComponent_rerenders_witness :
    ∃ w1 pre post,
      _updateComponent sampleCode twoEntries = (.ok (), w1)
      ∧ w1.self.state = Value.obj 103 [("a", Value.num 1), ("n", Value.num 1)]
      ∧ w1.self._pendingStates = []
      ∧ w1.events =
          twoEntries.events
            ++ [ Event.own Cycle.COMPONENT_WILL_UPDATE
                  [ Value.obj 1 [("x", Value.num 1)],
                    Value.obj 103 [("a", Value.num 1), ("n", Value.num 1)] ],
                 Event.setComponentProps (Value.str "page") ]
            ++ pre
            ++ [Event.render (Value.obj 1 [("x", Value.num 1)])
                (Value.obj 103 [("a", Value.num 1), ("n", Value.num 1)])]
            ++ post
            ++ [Event.own Cycle.COMPONENT_DID_UPDATE
                  [Value.obj 1 [("x", Value.num 1)], Value.obj 2 []]]
      ∧ ∀ e ∈ pre ++ post, e.fired = none := by
  obtain ⟨w1, pre, post, h1, h2, _, h4, _, _, h7, h8⟩ :=
    updateComponent_rerenders sampleCode twoEntries [("a", Value.num 1), ("n", Value.num 1)]
      (fun props state => some [("p", props), ("s", state)]) rfl
      (by
        intro e he
        simp only [twoEntries, withPending, List.mem_cons, List.mem_singleton,
          List.mem_nil_iff, or_false] at he
        rcases he with h | h <;> subst h
        · exact Or.inl rfl
        · exact Or.inr rfl)
      rfl rfl
      (fun cb h => absurd h (List.not_mem_nil cb))
      rfl (Or.inl ⟨rfl, rfl⟩)
  exact ⟨w1, pre, post, h1, h2, h4, h7, h8⟩

/-- C11, the code at the failing input: after `setState(0)` and `setState({a: 1})` on the
mounted sample instance, the update pass re-renders once with a copy of the prior state,
which lacks `a`, commits it, and leaves `{a: 1}` in the queue, because the loop of
`_collectState` ends at the falsy entry `0`. -/
theorem update_pass_stops_at_falsy_entry :
    mountedWithFalsyEntry.self._pendingStates =
        [Value.num 0, Value.obj 5 [("a", Value.num 1)]]
      ∧ mountedWithFalsyEntry.self.state = Value.obj 2 []
      ∧ (_updateComponent sampleCode mountedWithFalsyEntry).1 = .ok ()
      ∧ (_updateComponent sampleCode mountedWithFalsyEntry).2.events =
          mountedWithFalsyEntry.events ++
            [ Event.own Cycle.COMPONENT_WILL_UPDATE
                [Value.obj 1 [("x", Value.num 1)], Value.obj 103 []],
              Event.setComponentProps (Value.str "page"),
              Event.render (Value.obj 1 [("x", Value.num 1)]) (Value.obj 103 []),
              Event.setData
                [ ("p", Value.obj 105 [("x", Value.num 1)]), ("s", Value.obj 106 []),
                  ("$ready", Value.bool true) ],
              Event.own Cycle.COMPONENT_DID_UPDATE
                [Value.obj 1 [("x", Value.num 1)], Value.obj 2 []] ]
      ∧ (_updateComponent sampleCode mountedWithFalsyEntry).2.self.state = Value.obj 103 []
      ∧ (_updateComponent sampleCode mountedWithFalsyEntry).2.self._pendingStates =
          [Value.obj 5 [("a", Value.num 1)]] :=
  ⟨rfl, rfl, rfl, rfl, rfl, rfl⟩

/-- C17, the code at the failing input: the sample instance is mounted, re-rendered after
`setState({a: 1})` and re-rendered again after `setState({a: 2})`; the second pass starts
with state `{a: 1}` and snapshots it into `prevState`, yet calls did-update with the
mounted state `{}`, because the argument is read from the old `prevState` before the
snapshot is taken. -/
theorem didUpdate_state_lags_one_pass :
    beforeSecondStatePass.self.state = Value.obj 103 [("a", Value.num 1)]
      ∧ (_updateComponent sampleCode beforeSecondStatePass).1 = .ok ()
      ∧ (_updateComponent sampleCode beforeSecondStatePass).2.events =
          beforeSecondStatePass.events ++
            [ Event.own Cycle.COMPONENT_WILL_UPDATE
                [Value.obj 1 [("x", Value.num 1)], Value.obj 107 [("a", Value.num 2)]],
              Event.setComponentProps (Value.str "page"),
              Event.render (Value.obj 1 [("x", Value.num 1)])
                (Value.obj 107 [("a", Value.num 2)]),
              Event.setData
                [ ("p", Value.obj 109 [("x", Value.num 1)]),
                  ("s", Value.obj 110 [("a", Value.num 2)]), ("$ready", Value.bool true) ],
              Event.own Cycle.COMPONENT_DID_UPDATE
                [Value.obj 1 [("x", Value.num 1)], Value.obj 2 []] ]
      ∧ (_updateComponent sampleCode beforeSecondStatePass).2.self.prevState =
          Value.obj 103 [("a", Value.num 1)]
      ∧ (_updateComponent sampleCode beforeSecondStatePass).2.self.prevProps =
          Value.obj 1 [("x", Value.num 1)] :=
  ⟨rfl, rfl, rfl, rfl, rfl⟩

end Jsx2mp
